import Mathlib

/-!
# SSD telemetry (`src/ssd/ssd_metrics.cpp`): a shallow embedding

The C++ class `SSDMetrics` shells out to diagnostic tools and scrapes their
text.  The embedding below follows the source function by function.

* `std::string` is a list of `Char` (one `Char` per `char`).
* `executeCommand` is an oracle `executeCommand : Str → Str` from the command line
  to the captured output; `std::ifstream(path).good()` is an oracle
  `fileGood : Str → Bool`.
* `std::istringstream` is a record of the unread characters together with
  `eofbit` and `failbit`, and each extraction used by the source is a function
  on that record.
* `int` is `Int` with the 32-bit range checked where a conversion can leave it,
  `uint64_t` and `size_t` are `Nat` with the 64-bit range checked likewise.
* `double` is the exact rational a literal denotes, plus infinities and NaN;
  rounding to the nearest representable value is not modelled.
* `std::map` is an association list kept in ascending key order.
-/

namespace SSDMetrics

/-! ## Strings and characters -/

/-- A `std::string`. -/
abbrev Str := List Char

/-- The function `std::isdigit` in the C locale. -/
def isdigit (c : Char) : Bool := decide (48 ≤ c.toNat) && decide (c.toNat ≤ 57)

/-- The function `std::isspace` in the C locale: space, `\t`, `\n`, `\v`, `\f`, `\r`. -/
def isspace (c : Char) : Bool := c.toNat == 32 || (decide (9 ≤ c.toNat) && decide (c.toNat ≤ 13))

/-- Numeric value of a decimal digit character. -/
def digitVal (c : Char) : Nat := c.toNat - 48

/-- Value of a run of decimal digits, accumulated left to right as `strtol` and
`num_get` do. -/
def ofDigits10 (ds : Str) : Nat := ds.foldl (fun n c => 10 * n + digitVal c) 0

/-- Whether `s` begins with `needle`. -/
def startsWith : Str → Str → Bool
  | _, [] => true
  | [], _ :: _ => false
  | c :: cs, n :: ns => c == n && startsWith cs ns

/-- The member `std::string::find(needle)`: position of the first occurrence,
`none` for `npos`. -/
def find : Str → Str → Option Nat
  | [], needle => if startsWith [] needle then some 0 else none
  | c :: cs, needle =>
    if startsWith (c :: cs) needle then some 0 else (find cs needle).map (· + 1)

/-- The test `s.find(needle) != std::string::npos`. -/
def contains (s needle : Str) : Bool := (find s needle).isSome

/-- The lines that a `while (std::getline(iss, line))` loop over the text visits:
the text is cut at each `\n`, and a final `\n` opens no further line. -/
def getlines : Str → List Str
  | [] => []
  | c :: cs =>
    if c = '\n' then [] :: getlines cs
    else
      match getlines cs with
      | [] => [[c]]
      | l :: ls => (c :: l) :: ls

/-! ## Numeric conversions of the standard library -/

/-- Largest `int`. -/
def INT_MAX : Int := 2147483647

/-- Smallest `int`. -/
def INT_MIN : Int := -2147483648

/-- Largest `unsigned long long`. -/
def ULLONG_MAX : Nat := 2 ^ 64 - 1

/-- An optional sign at the head of a numeral: whether it is `-`, and the rest. -/
def takeSign : Str → Bool × Str
  | '-' :: cs => (true, cs)
  | '+' :: cs => (false, cs)
  | cs => (false, cs)

/-- The function `std::stoi(word)` (base 10): leading white space, an optional sign,
then the longest run of digits; `none` stands for the exception thrown when there
is no digit (`invalid_argument`) or the value does not fit `int`
(`out_of_range`). -/
def stoi (word : Str) : Option Int :=
  let (neg, body) := takeSign (word.dropWhile isspace)
  let ds := body.takeWhile isdigit
  if ds.isEmpty then none
  else
    let v : Int := if neg then -(ofDigits10 ds : Int) else (ofDigits10 ds : Int)
    if v < INT_MIN ∨ INT_MAX < v then none else some v

/-- The function `std::stoull(s)` (base 10): as `strtoull`, a leading `-` negates the
value modulo `2^64`; `none` stands for the exception thrown when there is no
digit or the digits exceed `ULLONG_MAX`. -/
def stoull (s : Str) : Option Nat :=
  let (neg, body) := takeSign (s.dropWhile isspace)
  let ds := body.takeWhile isdigit
  if ds.isEmpty then none
  else
    let v := ofDigits10 ds
    if ULLONG_MAX < v then none
    else some (if neg then (2 ^ 64 - v) % 2 ^ 64 else v)

/-! ## Device discovery: size conversion (`discoverSSDs`, lines 64-72) -/

/-- The `try` block that turns the size token into `info.size_bytes`: keep the
digit characters, convert them with `std::stoull`, and fall back to `0` when
nothing is left or the conversion throws. -/
def sizeBytesOf (size : Str) : Nat :=
  let size_digits := size.filter isdigit
  if size_digits.isEmpty then 0
  else
    match stoull size_digits with
    | some v => v
    | none => 0

/-! ## Input string streams -/

/-- A `std::istringstream`: the characters not yet consumed and the two state
bits the source depends on.  No exception mask is ever set in the source, so a
failed extraction only sets `failbit`. -/
structure IStream where
  /-- Characters not yet consumed. -/
  buf : Str
  /-- The end of the text was reached by an earlier read. -/
  eofbit : Bool
  /-- An earlier extraction failed. -/
  failbit : Bool
deriving DecidableEq, Repr

/-- A stream freshly constructed on a text. -/
def IStream.ofStr (s : Str) : IStream := { buf := s, eofbit := false, failbit := false }

/-- The member `good()`: neither state bit is set. -/
def IStream.good (s : IStream) : Bool := !s.eofbit && !s.failbit

/-- Extraction `stream >> word` into a `std::string`.  The sentry fails on a stream
that is not good, or when only white space is left; then the target keeps its
old content (`none`).  Otherwise the word runs up to the next white space, and
`eofbit` is set when the word ends the text. -/
def readWord (s : IStream) : IStream × Option Str :=
  if !s.good then ({ s with failbit := true }, none)
  else
    let b := s.buf.dropWhile isspace
    if b.isEmpty then ({ buf := [], eofbit := true, failbit := true }, none)
    else
      let r := b.dropWhile (fun c => !isspace c)
      ({ buf := r, eofbit := r.isEmpty, failbit := false },
        some (b.takeWhile (fun c => !isspace c)))

/-- Extraction `stream >> n` into an `int` (decimal): white space is skipped, then
an optional sign and the longest run of digits are consumed.  The extraction
fails (`none`) when the sentry fails, when there is no digit, or when the value
does not fit `int`. -/
def readInt (s : IStream) : IStream × Option Int :=
  if !s.good then ({ s with failbit := true }, none)
  else
    let b := s.buf.dropWhile isspace
    if b.isEmpty then ({ buf := [], eofbit := true, failbit := true }, none)
    else
      let (neg, body) := takeSign b
      let ds := body.takeWhile isdigit
      let r := body.dropWhile isdigit
      if ds.isEmpty then ({ buf := r, eofbit := r.isEmpty, failbit := true }, none)
      else
        let v : Int := if neg then -(ofDigits10 ds : Int) else (ofDigits10 ds : Int)
        if v < INT_MIN ∨ INT_MAX < v then
          ({ buf := r, eofbit := r.isEmpty, failbit := true }, none)
        else ({ buf := r, eofbit := r.isEmpty, failbit := false }, some v)

/-- The call `std::getline(stream, str, delim)`.  On a stream that is not good the
target keeps its old content (`none`).  Otherwise the target receives the
characters before the next `delim`, which is consumed; reaching the end of the
text sets `eofbit`, and `failbit` too when nothing was extracted. -/
def getlineDelim (s : IStream) (delim : Char) : IStream × Option Str :=
  if !s.good then ({ s with failbit := true }, none)
  else
    let w := s.buf.takeWhile (fun c => c != delim)
    match s.buf.dropWhile (fun c => c != delim) with
    | [] => ({ buf := [], eofbit := true, failbit := w.isEmpty }, some w)
    | _ :: r => ({ buf := r, eofbit := false, failbit := false }, some w)

/-! ## Ordered maps -/

/-- The order `std::string::operator<`: lexicographic on character codes. -/
def strLt : Str → Str → Bool
  | _, [] => false
  | [], _ :: _ => true
  | a :: as, b :: bs =>
    if a.toNat < b.toNat then true
    else if a.toNat = b.toNat then strLt as bs
    else false

/-- A `std::map<std::string, V>`: the entries in ascending key order. -/
abbrev StdMap (V : Type) := List (Str × V)

/-- The member `find(key)`: the value stored under `key`, `none` for `end()`. -/
def mapFind {V : Type} : StdMap V → Str → Option V
  | [], _ => none
  | (k, v) :: rest, key =>
    if strLt key k then none
    else if key = k then some v
    else mapFind rest key

/-- An access `m[key]` followed by an update `f` of the referenced value: a missing
key is first inserted with the value-initialised `dflt`. -/
def mapAlter {V : Type} (dflt : V) (f : V → V) : StdMap V → Str → StdMap V
  | [], key => [(key, f dflt)]
  | (k, v) :: rest, key =>
    if strLt key k then (key, f dflt) :: (k, v) :: rest
    else if key = k then (k, f v) :: rest
    else (k, v) :: mapAlter dflt f rest key

/-- The assignment `m[key] = value`. -/
def mapSet {V : Type} (m : StdMap V) (key : Str) (value : V) (dflt : V) : StdMap V :=
  mapAlter dflt (fun _ => value) m key

/-! ## Health-attribute decoder (`parseSMARTOutput`, lines 230-297) -/

/-- The record `SSDMetrics::SMARTData`. -/
structure SMARTData where
  /-- Attribute number. -/
  id : Int
  /-- Attribute name. -/
  attribute_name : Str
  /-- Field `current_value`. -/
  current_value : Int
  /-- Field `worst_value`. -/
  worst_value : Int
  /-- Field `threshold`. -/
  threshold : Int
  /-- Field `raw_value`. -/
  raw_value : Str
deriving DecidableEq, Repr

/-- The loop `while (line_iss >> word)` of lines 263-275.  A word whose first
character is a digit and which `std::stoi` converts becomes `current_value` and
ends the loop; every other word is appended to the name after a space.  The
first argument bounds the number of iterations; `cur` is the content of
`current_value` on entry. -/
def nameLoop : Nat → IStream → Str → Int → IStream × Str × Int
  | 0, s, name, cur => (s, name, cur)
  | fuel + 1, s, name, cur =>
    match readWord s with
    | (s1, none) => (s1, name, cur)
    | (s1, some word) =>
      match word with
      | [] => nameLoop fuel s1 (name ++ ' ' :: word) cur
      | c :: _ =>
        if isdigit c then
          match stoi word with
          | some v => (s1, name, v)
          | none => nameLoop fuel s1 (name ++ ' ' :: word) cur
        else nameLoop fuel s1 (name ++ ' ' :: word) cur

/-- The statement `if (!(line_iss >> field)) field = 0;` of lines 279-280. -/
def readIntOrZero (s : IStream) : IStream × Int :=
  match readInt s with
  | (s1, some v) => (s1, v)
  | (s1, none) => (s1, 0)

/-- The body of the data loop (lines 244-293) on one line: `none` when the line
is skipped by a `continue`.  `SMARTData data;` leaves `current_value`
uninitialised; `indet` stands for the indeterminate value it then holds.  The
`catch (...)` of lines 286-291 is unreachable, because the stream operations
inside the `try` never throw. -/
def parseSMARTLine (indet : Int) (line : Str) : Option SMARTData :=
  if line.isEmpty then none
  else
    match readInt (IStream.ofStr line) with
    | (_, none) => none
    | (s1, some id) =>
      match readWord s1 with
      | (_, none) => none
      | (s2, some word) =>
        let (s3, name, cur) := nameLoop (s2.buf.length + 1) s2 word indet
        let (s4, worst) := readIntOrZero s3
        let (s5, thresh) := readIntOrZero s4
        let raw := ((getlineDelim s5 '\n').2).getD []
        some { id := id, attribute_name := name, current_value := cur,
               worst_value := worst, threshold := thresh, raw_value := raw }

/-- The function `SSDMetrics::parseSMARTOutput`: lines up to and including the first
one that contains `ID#` are skipped, the following lines are decoded. -/
def parseSMARTOutput (indet : Int) (output : Str) : List SMARTData :=
  let lines := getlines output
  let body := (lines.dropWhile (fun l => !contains l "ID#".toList)).drop 1
  body.filterMap (parseSMARTLine indet)

/-! ## Key/value decoder (`parseNVMeOutput`, lines 317-340) -/

/-- The member `find_first_not_of(chars)`; `none` stands for `npos`. -/
def find_first_not_of : Str → Str → Option Nat
  | [], _ => none
  | c :: cs, chars =>
    if c ∈ chars then (find_first_not_of cs chars).map (· + 1) else some 0

/-- The member `find_last_not_of(chars)`; `none` stands for `npos`. -/
def find_last_not_of : Str → Str → Option Nat
  | [], _ => none
  | c :: cs, chars =>
    match find_last_not_of cs chars with
    | some i => some (i + 1)
    | none => if c ∈ chars then none else some 0

/-- The value `pos + 1` in `size_t` arithmetic: `npos + 1` wraps around to 0. -/
def posPlusOne : Option Nat → Nat
  | some i => i + 1
  | none => 0

/-- The member `erase(pos, n)`, with `n = none` for the default `npos`: at most `n`
characters are removed from position `pos` on; `none` stands for the
`out_of_range` exception thrown when `pos` exceeds the length. -/
def erase (s : Str) (pos : Nat) (n : Option Nat) : Option Str :=
  if s.length < pos then none
  else
    match n with
    | none => some (s.take pos)
    | some k => some (s.take pos ++ s.drop (pos + k))

/-- The member `substr(pos, n)`, with `n = none` for the default `npos`; `none`
stands for the `out_of_range` exception thrown when `pos` exceeds the length. -/
def substr (s : Str) (pos : Nat) (n : Option Nat) : Option Str :=
  if s.length < pos then none
  else
    match n with
    | none => some (s.drop pos)
    | some k => some ((s.drop pos).take k)

/-- The two `erase` calls that trim one side (lines 329-330 and 332-333). -/
def trimBlanks (s : Str) : Option Str :=
  match erase s 0 (find_first_not_of s [' ', '\t']) with
  | none => none
  | some s1 => erase s1 (posPlusOne (find_last_not_of s1 [' ', '\t'])) none

/-- The loop body of `parseNVMeOutput` on one line; `none` stands for an exception
leaving the function. -/
def parseNVMeLine (metrics : StdMap Str) (line : Str) : Option (StdMap Str) :=
  match find line [':'] with
  | none => some metrics
  | some colon_pos =>
    match substr line 0 (some colon_pos), substr line (colon_pos + 1) none with
    | some key0, some value0 =>
      match trimBlanks key0, trimBlanks value0 with
      | some key, some value => some (mapSet metrics key value [])
      | _, _ => none
    | _, _ => none

/-- The loop of `parseNVMeOutput` over the remaining lines. -/
def parseNVMeLines : List Str → StdMap Str → Option (StdMap Str)
  | [], metrics => some metrics
  | line :: rest, metrics =>
    match parseNVMeLine metrics line with
    | some metrics1 => parseNVMeLines rest metrics1
    | none => none

/-- The function `SSDMetrics::parseNVMeOutput`; `none` stands for an exception leaving
the function. -/
def parseNVMeOutput (output : Str) : Option (StdMap Str) :=
  parseNVMeLines (getlines output) []

/-! ## Floating-point values and `std::stod` -/

/-- A `double`: a finite value, an infinity, or NaN.  Finite values are exact
rationals; rounding is not modelled. -/
inductive Double where
  /-- A finite value. -/
  | fin (q : ℚ)
  /-- An infinity; the flag is the sign bit. -/
  | inf (neg : Bool)
  /-- Not a number. -/
  | nan
deriving DecidableEq

/-- The conversion `static_cast<double>(n)` of an `int`. -/
def Double.ofInt (n : Int) : Double := Double.fin n

/-- Subtraction of two `double` values. -/
def Double.sub : Double → Double → Double
  | Double.fin a, Double.fin b => Double.fin (a - b)
  | Double.fin _, Double.inf neg => Double.inf (!neg)
  | Double.inf neg, Double.fin _ => Double.inf neg
  | Double.inf n1, Double.inf n2 => if n1 = n2 then Double.nan else Double.inf n1
  | _, _ => Double.nan

/-- Value of a hexadecimal digit character. -/
def hexVal (c : Char) : Option Nat :=
  if isdigit c then some (c.toNat - 48)
  else if 97 ≤ c.toNat ∧ c.toNat ≤ 102 then some (c.toNat - 87)
  else if 65 ≤ c.toNat ∧ c.toNat ≤ 70 then some (c.toNat - 55)
  else none

/-- The function `std::isxdigit`. -/
def isxdigit (c : Char) : Bool := (hexVal c).isSome

/-- Value of a run of hexadecimal digits. -/
def ofDigits16 (ds : Str) : Nat := ds.foldl (fun n c => 16 * n + (hexVal c).getD 0) 0

/-- ASCII lower-casing of one character. -/
def lowerChar (c : Char) : Char :=
  if 65 ≤ c.toNat ∧ c.toNat ≤ 90 then Char.ofNat (c.toNat + 32) else c

/-- The significand of a floating literal: a run of digits that may contain one
radix point and has at least one digit.  Returns the digits without the point,
the number of digits after the point, and the unread rest. -/
def scanSignificand (isDig : Char → Bool) (s : Str) : Option (Str × Nat × Str) :=
  let ip := s.takeWhile isDig
  match s.dropWhile isDig with
  | '.' :: t =>
    let fp := t.takeWhile isDig
    if ip.isEmpty && fp.isEmpty then none else some (ip ++ fp, fp.length, t.dropWhile isDig)
  | r => if ip.isEmpty then none else some (ip, 0, r)

/-- The exponent part of a floating literal: a marker character, an optional sign
and at least one decimal digit; 0 when the part is absent or incomplete. -/
def scanExponent (isMark : Char → Bool) : Str → Int
  | [] => 0
  | c :: cs =>
    if isMark c then
      let (neg, body) := takeSign cs
      let ds := body.takeWhile isdigit
      if ds.isEmpty then 0
      else if neg then -(ofDigits10 ds : Int) else (ofDigits10 ds : Int)
    else 0

/-- A hexadecimal floating literal: `0x` or `0X`, a hexadecimal significand and
an optional binary exponent after `p` or `P`. -/
def scanHex : Str → Option ℚ
  | '0' :: x :: t =>
    if x = 'x' ∨ x = 'X' then
      match scanSignificand isxdigit t with
      | some (ds, k, r) =>
        some ((ofDigits16 ds : ℚ) * (2 : ℚ) ^ scanExponent (fun c => c = 'p' ∨ c = 'P') r
          / (16 : ℚ) ^ k)
      | none => none
    else none
  | _ => none

/-- A decimal floating literal: a decimal significand and an optional decimal
exponent after `e` or `E`. -/
def scanDecimal (s : Str) : Option ℚ :=
  match scanSignificand isdigit s with
  | some (ds, k, r) =>
    some ((ofDigits10 ds : ℚ) * (10 : ℚ) ^ scanExponent (fun c => c = 'e' ∨ c = 'E') r
      / (10 : ℚ) ^ k)
  | none => none

/-- The unsigned part of the subject sequence of `strtod`: `inf`, `nan`, a
hexadecimal literal, or a decimal literal. -/
def scanMagnitude (s : Str) : Option Double :=
  if startsWith (s.map lowerChar) "inf".toList then some (Double.inf false)
  else if startsWith (s.map lowerChar) "nan".toList then some Double.nan
  else
    match scanHex s with
    | some q => some (Double.fin q)
    | none =>
      match scanDecimal s with
      | some q => some (Double.fin q)
      | none => none

/-- Whether `strtod` reports `ERANGE` for the exact magnitude `q`: the value rounds
to an infinity, or it is non-zero, below the smallest normal `double` and not
itself a `double`. -/
def rangeError (q : ℚ) : Bool :=
  decide ((2 : ℚ) ^ 1024 - (2 : ℚ) ^ 970 ≤ q)
    || (decide (0 < q ∧ q < 1 / (2 : ℚ) ^ 1022) && decide ((q * (2 : ℚ) ^ 1074).den ≠ 1))

/-- The function `std::stod(s)`: `strtod` on the whole string; `none` stands for the
exception thrown when no conversion is possible (`invalid_argument`) or the
value is out of range (`out_of_range`).  Characters after the literal are
ignored. -/
def stod (s : Str) : Option Double :=
  let (neg, body) := takeSign (s.dropWhile isspace)
  match scanMagnitude body with
  | none => none
  | some (Double.fin q) =>
    if rangeError q then none else some (Double.fin (if neg then -q else q))
  | some (Double.inf _) => some (Double.inf neg)
  | some Double.nan => some Double.nan

/-! ## Lifetime estimate (`getEstimatedLifeRemaining`, lines 401-440) -/

/-- The function `SSDMetrics::getSMARTData`. -/
def getSMARTData (executeCommand : Str → Str) (indet : Int) (device_path : Str) : List SMARTData :=
  parseSMARTOutput indet (executeCommand ("smartctl -A ".toList ++ device_path ++ " 2>/dev/null".toList))

/-- The function `SSDMetrics::getNVMeMetrics`: the empty map for a path without `nvme`
and when the decoder throws. -/
def getNVMeMetrics (executeCommand : Str → Str) (device_path : Str) : StdMap Str :=
  if !contains device_path "nvme".toList then []
  else
    match parseNVMeOutput
        (executeCommand ("nvme smart-log ".toList ++ device_path ++ " 2>/dev/null".toList)) with
    | some metrics => metrics
    | none => []

/-- The condition of lines 428-429 on one attribute. -/
def isWearAttribute (data : SMARTData) : Bool :=
  contains data.attribute_name "Media_Wearout_Indicator".toList
    || contains data.attribute_name "Wear_Leveling_Count".toList

/-- The value `-1.0` that `getEstimatedLifeRemaining` starts from. -/
def unknownLife : Double := Double.fin (-1)

/-- The NVMe branch (lines 405-420) on the vendor key/value map. -/
def lifeFromNVMe (nvme_metrics : StdMap Str) : Double :=
  match mapFind nvme_metrics "Percentage Used".toList with
  | none => unknownLife
  | some text =>
    match stod text with
    | some v => Double.sub (Double.fin 100) v
    | none => unknownLife

/-- The SATA branch (lines 422-436) on the decoded attributes. -/
def lifeFromSMART : List SMARTData → Double
  | [] => unknownLife
  | data :: rest =>
    if isWearAttribute data then Double.ofInt data.current_value else lifeFromSMART rest

/-- The function `SSDMetrics::getEstimatedLifeRemaining`. -/
def getEstimatedLifeRemaining (executeCommand : Str → Str) (indet : Int) (device_path : Str) : Double :=
  if contains device_path "nvme".toList then lifeFromNVMe (getNVMeMetrics executeCommand device_path)
  else lifeFromSMART (getSMARTData executeCommand indet device_path)

/-! ## History store and persistence (lines 442-474 and 491-497) -/

/-- The record `SSDMetrics::PerformanceMetrics`; the time point is its tick count. -/
structure PerformanceMetrics where
  /-- Field `read_iops`. -/
  read_iops : Double
  /-- Field `write_iops`. -/
  write_iops : Double
  /-- Field `read_throughput_mb`. -/
  read_throughput_mb : Double
  /-- Field `write_throughput_mb`. -/
  write_throughput_mb : Double
  /-- Field `read_latency_ms`. -/
  read_latency_ms : Double
  /-- Field `write_latency_ms`. -/
  write_latency_ms : Double
  /-- Field `queue_depth`. -/
  queue_depth : Double
  /-- Field `timestamp`. -/
  timestamp : Int
deriving DecidableEq

/-- The member `metrics_history_`. -/
abbrev History := StdMap (List PerformanceMetrics)

/-- The sequence held for a device; a device without an entry has none. -/
def historyOf (hist : History) (device_path : Str) : List PerformanceMetrics :=
  (mapFind hist device_path).getD []

/-- The record step of the monitoring loop (lines 491-497): `push_back` on
`metrics_history_[device_path]`, then `erase(begin())` when the size exceeds
1000. -/
def recordStep (hist : History) (device_path : Str) (metrics : PerformanceMetrics) : History :=
  let hist1 := mapAlter [] (fun v => v ++ [metrics]) hist device_path
  if 1000 < (historyOf hist1 device_path).length then
    mapAlter [] (fun v => v.drop 1) hist1 device_path
  else hist1

/-- The header line written by `saveMetricsHistory` into an empty file. -/
def csvHeader : Str :=
  ("timestamp,device,read_iops,write_iops,read_throughput_mb,write_throughput_mb,"
    ++ "read_latency_ms,write_latency_ms,queue_depth").toList

/-- The rows written by the nested loops of lines 458-471; `fmt device metrics` is
the text of one row, whose rendering of the local time and of the numbers is
left to the library. -/
def historyRows (fmt : Str → PerformanceMetrics → Str) (hist : History) : List Str :=
  hist.flatMap (fun entry => entry.2.map (fmt entry.1))

/-- The function `SSDMetrics::saveMetricsHistory` on the lines of the output file:
nothing happens when the file cannot be opened; otherwise the header is
appended when the file is empty, then the rows. -/
def saveMetricsHistory (fmt : Str → PerformanceMetrics → Str) (isOpen : Bool)
    (hist : History) (file : List Str) : List Str :=
  if !isOpen then file
  else (if file.isEmpty then [csvHeader] else file) ++ historyRows fmt hist

/-- The state shared by the monitoring loop and the flush: the history and the
lines of the output file. -/
structure MonitorState where
  /-- The member `metrics_history_`. -/
  metrics_history_ : History
  /-- The lines of the output file. -/
  file : List Str

/-- The steps that change the state. -/
inductive MonitorOp where
  /-- The record step for a device and a snapshot. -/
  | record (device_path : Str) (metrics : PerformanceMetrics)
  /-- A call of `saveMetricsHistory`; the flag tells whether the file opens. -/
  | save (isOpen : Bool)

/-- One step on the state. -/
def MonitorState.step (fmt : Str → PerformanceMetrics → Str) (st : MonitorState) :
    MonitorOp → MonitorState
  | MonitorOp.record device_path metrics =>
    { st with metrics_history_ := recordStep st.metrics_history_ device_path metrics }
  | MonitorOp.save isOpen =>
    { st with file := saveMetricsHistory fmt isOpen st.metrics_history_ st.file }

/-- The state of a fresh `SSDMetrics` object with an output file of given content. -/
def MonitorState.init (file : List Str) : MonitorState :=
  { metrics_history_ := [], file := file }

/-- A run of steps from a state. -/
def MonitorState.run (fmt : Str → PerformanceMetrics → Str) (st : MonitorState)
    (ops : List MonitorOp) : MonitorState :=
  ops.foldl (MonitorState.step fmt) st

/-! ## Device discovery (lines 42-221) -/

/-- The record `SSDMetrics::DiskInfo`. -/
structure DiskInfo where
  /-- Field `device_path`. -/
  device_path : Str
  /-- Field `model`. -/
  model : Str
  /-- Field `serial`. -/
  serial : Str
  /-- Field `size_bytes`. -/
  size_bytes : Nat
  /-- Field `interface_type`. -/
  interface_type : Str
deriving DecidableEq, Repr

/-- The body of the first loop of `discoverSSDs` (lines 54-93) on one line of the
listing: `none` when the rotational filter drops the row. -/
def discoverSSDsRow (executeCommand : Str → Str) (line : Str) : Option DiskInfo :=
  let (s1, name1) := readWord (IStream.ofStr line)
  let name := name1.getD []
  let device_path := "/dev/".toList ++ name
  let (s2, model1) := getlineDelim s1 ' '
  let (_, size1) := readWord s2
  let size_bytes := sizeBytesOf (size1.getD [])
  let rot_result := executeCommand ("cat /sys/block/".toList ++ name ++ "/queue/rotational".toList)
  if contains rot_result "0".toList || rot_result.isEmpty then
    let smart_result := executeCommand ("smartctl -i ".toList ++ device_path ++ " 2>/dev/null".toList)
    let interface_type :=
      if contains smart_result "NVMe".toList then "NVMe".toList
      else if contains smart_result "SATA".toList then "SATA".toList
      else "Unknown".toList
    some { device_path := device_path, model := model1.getD [], serial := [],
           size_bytes := size_bytes, interface_type := interface_type }
  else none

/-- The body of the second loop of `discoverSSDs` (lines 113-127) on one line of
the NVMe listing. -/
def discoverNVMeRow (line : Str) : Option DiskInfo :=
  if line.isEmpty then none
  else
    let dev_name := ((readWord (IStream.ofStr line)).2).getD []
    if !dev_name.isEmpty then
      some { device_path := dev_name, model := "NVMe Device".toList, serial := [],
             size_bytes := 0, interface_type := "NVMe".toList }
    else none

/-- The list `potential_paths` of `detectDrives`. -/
def potential_paths : List Str :=
  ["/dev/nvme0n1".toList, "/dev/nvme1n1".toList, "/dev/sda".toList, "/dev/sdb".toList,
   "/dev/sdc".toList, "/dev/vda".toList]

/-- The record built for an existing conventional path (lines 157-162). -/
def probedDrive (path : Str) : DiskInfo :=
  { device_path := path,
    model := if contains path "nvme".toList then "NVMe Device".toList
             else "SATA/SAS Device".toList,
    serial := [],
    size_bytes := 0,
    interface_type := if contains path "nvme".toList then "NVMe".toList
                      else "SATA/SAS".toList }

/-- The body of the listing loop of `detectDrives` (lines 175-182) on one line. -/
def listedDrive (line : Str) : Option DiskInfo :=
  if line.isEmpty then none
  else
    some { device_path := "/dev/".toList ++ line,
           model := if contains line "nvme".toList then "NVMe Device".toList
                    else "Block Device".toList,
           serial := [],
           size_bytes := 0,
           interface_type := if contains line "nvme".toList then "NVMe".toList
                             else "Unknown".toList }

/-- The function `SSDMetrics::detectDrives`. -/
def detectDrives (executeCommand : Str → Str) (fileGood : Str → Bool) : List DiskInfo :=
  let disks := (potential_paths.filter fileGood).map probedDrive
  if disks.isEmpty then
    (getlines (executeCommand "lsblk -d -n -o NAME | grep -v -e '^loop' -e '^sr'".toList)).filterMap
      listedDrive
  else disks

/-- The function `SSDMetrics::discoverSSDs`. -/
def discoverSSDs (executeCommand : Str → Str) (fileGood : Str → Bool) : List DiskInfo :=
  let listed :=
    (getlines (executeCommand
      "lsblk -d -o NAME,MODEL,SIZE,SERIAL -n | grep -v -e '^loop' -e '^sr'".toList)).filterMap
      (discoverSSDsRow executeCommand)
  let nvme := ((getlines (executeCommand "nvme list 2>/dev/null".toList)).drop 1).filterMap discoverNVMeRow
  let disks := listed ++ nvme
  if disks.isEmpty then detectDrives executeCommand fileGood else disks

/-- The body of the loop of `discoverBlockDevices` (lines 201-214) on one line. -/
def blockDeviceRow (line : Str) : Option DiskInfo :=
  if line.isEmpty || contains line "loop".toList then none
  else
    let (s1, name1) := readWord (IStream.ofStr line)
    let (s2, _) := readWord s1
    let model := ((getlineDelim s2 '\n').2).getD []
    some { device_path := "/dev/".toList ++ name1.getD [], model := model, serial := [],
           size_bytes := 0, interface_type := "Unknown".toList }

/-- The function `SSDMetrics::discoverBlockDevices`. -/
def discoverBlockDevices (executeCommand : Str → Str) : List DiskInfo :=
  (getlines (executeCommand "lsblk -d -n -o NAME,SIZE,MODEL".toList)).filterMap blockDeviceRow

/-! ## Performance decoder (`getPerformanceMetrics`, lines 342-399) -/

/-- The characters that `num_get` accumulates for a floating value: the sign, the
digits before and after the radix point, and the exponent part (its sign and
digits) when an `e` or `E` was accepted. -/
structure FloatChars where
  /-- A leading `-` was read. -/
  neg : Bool
  /-- Digits before the radix point. -/
  intDigits : Str
  /-- Digits after the radix point. -/
  fracDigits : Str
  /-- Sign and digits of the exponent, when an exponent marker was read. -/
  exponent : Option (Bool × Str)
deriving DecidableEq, Repr

/-- The digits after a radix point, when the text starts with one, and the rest. -/
def takeFraction : Str → Str × Str
  | '.' :: t => (t.takeWhile isdigit, t.dropWhile isdigit)
  | b => ([], b)

/-- The exponent part, accepted only after a digit of the significand
(`hasDigit`): the marker, an optional sign and a run of digits; and the rest. -/
def takeExponent (hasDigit : Bool) : Str → Option (Bool × Str) × Str
  | [] => (none, [])
  | c :: t =>
    if (c = 'e' ∨ c = 'E') ∧ hasDigit = true then
      (some ((takeSign t).1, (takeSign t).2.takeWhile isdigit),
        (takeSign t).2.dropWhile isdigit)
    else (none, c :: t)

/-- The scan of `num_get` for a `double`: an optional sign, digits, at most one
radix point with digits, and at most one exponent part; it returns what was
accumulated and the unread rest. -/
def extractFloat (b : Str) : FloatChars × Str :=
  let b1 := (takeSign b).2
  let ip := b1.takeWhile isdigit
  let fr := takeFraction (b1.dropWhile isdigit)
  let ex := takeExponent (!(ip.isEmpty && fr.1.isEmpty)) fr.2
  ({ neg := (takeSign b).1, intDigits := ip, fracDigits := fr.1, exponent := ex.1 }, ex.2)

/-- The magnitude denoted by the accumulated characters; `none` when `strtod` does
not convert all of them: no digit in the significand, or an exponent marker
without a digit. -/
def FloatChars.magnitude (f : FloatChars) : Option ℚ :=
  if f.intDigits.isEmpty && f.fracDigits.isEmpty then none
  else
    let mant : ℚ := (ofDigits10 (f.intDigits ++ f.fracDigits) : ℚ) / (10 : ℚ) ^ f.fracDigits.length
    match f.exponent with
    | none => some mant
    | some (eneg, ds) =>
      if ds.isEmpty then none
      else some (mant * (10 : ℚ) ^ (if eneg then -(ofDigits10 ds : Int) else (ofDigits10 ds : Int)))

/-- The largest finite `double`. -/
def DBL_MAX : ℚ := (2 : ℚ) ^ 1024 - (2 : ℚ) ^ 971

/-- The value `num_get` stores and whether it reports success: a text that does
not convert stores 0 and fails; a magnitude that rounds to an infinity stores
the largest finite value with the sign and fails. -/
def FloatChars.result (f : FloatChars) : Double × Bool :=
  match f.magnitude with
  | none => (Double.fin 0, false)
  | some q =>
    if (2 : ℚ) ^ 1024 - (2 : ℚ) ^ 970 ≤ q then
      (Double.fin (if f.neg then -DBL_MAX else DBL_MAX), false)
    else (Double.fin (if f.neg then -q else q), true)

/-- Extraction `stream >> x` into a `double`: the new state and the value stored
into `x`, or `none` when `x` keeps its content.  When the sentry fails (stream
not good, or only white space left) `x` is not written; otherwise `x` receives
the value stored by `num_get`, `failbit` is set when the conversion fails, and
`eofbit` when the scan reached the end of the text. -/
def readDouble (s : IStream) : IStream × Option Double :=
  if !s.good then ({ s with failbit := true }, none)
  else
    let b := s.buf.dropWhile isspace
    if b.isEmpty then ({ buf := [], eofbit := true, failbit := true }, none)
    else
      let fr := extractFloat b
      ({ buf := fr.2, eofbit := fr.2.isEmpty, failbit := !(fr.1.result).2 },
        some (fr.1.result).1)

/-- The loop `for (int i = 0; i < 6; i++) line_iss >> field;` generalised to `n`
extractions. -/
def skipWords : Nat → IStream → IStream
  | 0, s => s
  | n + 1, s => skipWords n (readWord s).1

/-- What the seven extractions of lines 373-382 store: for each field the value
written, or `none` when the field is not written. -/
structure FieldReads where
  /-- Extraction into `read_iops`. -/
  read_iops : Option Double
  /-- Extraction into `write_iops`. -/
  write_iops : Option Double
  /-- Extraction into `read_throughput_mb`. -/
  read_throughput_mb : Option Double
  /-- Extraction into `write_throughput_mb`. -/
  write_throughput_mb : Option Double
  /-- Extraction into `read_latency_ms`. -/
  read_latency_ms : Option Double
  /-- Extraction into `write_latency_ms`. -/
  write_latency_ms : Option Double
  /-- Extraction into `queue_depth`. -/
  queue_depth : Option Double
deriving DecidableEq

/-- The extractions of lines 364-382 on the matching line: the device name is
skipped, four values are read, six words are skipped, three values are read. -/
def scanPerformanceFields (line : Str) : FieldReads :=
  let s1 := (readWord (IStream.ofStr line)).1
  let r1 := readDouble s1
  let r2 := readDouble r1.1
  let r3 := readDouble r2.1
  let r4 := readDouble r3.1
  let s6 := skipWords 6 r4.1
  let r5 := readDouble s6
  let r6 := readDouble r5.1
  let r7 := readDouble r6.1
  { read_iops := r1.2, write_iops := r2.2, read_throughput_mb := r3.2,
    write_throughput_mb := r4.2, read_latency_ms := r5.2, write_latency_ms := r6.2,
    queue_depth := r7.2 }

/-- The body of the `if` of lines 364-391 on the matching line: every field that
an extraction writes receives the value, the others keep their content.  The
`catch` of lines 383-389 is unreachable, because the extractions inside the
`try` never throw. -/
def readPerformanceFields (line : Str) (metrics : PerformanceMetrics) : PerformanceMetrics :=
  { metrics with
    read_iops := (scanPerformanceFields line).read_iops.getD metrics.read_iops,
    write_iops := (scanPerformanceFields line).write_iops.getD metrics.write_iops,
    read_throughput_mb :=
      (scanPerformanceFields line).read_throughput_mb.getD metrics.read_throughput_mb,
    write_throughput_mb :=
      (scanPerformanceFields line).write_throughput_mb.getD metrics.write_throughput_mb,
    read_latency_ms := (scanPerformanceFields line).read_latency_ms.getD metrics.read_latency_ms,
    write_latency_ms :=
      (scanPerformanceFields line).write_latency_ms.getD metrics.write_latency_ms,
    queue_depth := (scanPerformanceFields line).queue_depth.getD metrics.queue_depth }

/-- The loop of lines 362-393 over the lines of the report: the first line that
is not empty and contains the device name is decoded, and the loop ends. -/
def performanceLoop (device_name : Str) : List Str → PerformanceMetrics → PerformanceMetrics
  | [], metrics => metrics
  | line :: rest, metrics =>
    if !line.isEmpty && contains line device_name then readPerformanceFields line metrics
    else performanceLoop device_name rest metrics

/-- The device name of lines 347-350: the path without its first five characters
when it contains `/dev/` (then it has at least five characters). -/
def deviceNameOf (device_path : Str) : Str :=
  if contains device_path "/dev/".toList then device_path.drop 5 else device_path

/-- The function `SSDMetrics::getPerformanceMetrics`.  `PerformanceMetrics metrics;`
leaves the numeric fields uninitialised: `indet` stands for their indeterminate
content, and `now` for the clock reading stored in `timestamp`. -/
def getPerformanceMetrics (executeCommand : Str → Str) (now : Int) (indet : PerformanceMetrics)
    (device_path : Str) : PerformanceMetrics :=
  performanceLoop (deviceNameOf device_path)
    (getlines (executeCommand
      ("iostat -xm ".toList ++ deviceNameOf device_path
        ++ " 1 2 2>/dev/null | tail -n 2".toList)))
    { indet with timestamp := now }

/-! ## Definitions used to state the properties -/

/-- The number whose decimal digits are the digit characters of `s`, in order. -/
def digitsNumber (s : Str) : Nat := Nat.ofDigits 10 (((s.filter isdigit).map digitVal).reverse)

/-- The effect of a record step with bound `cap` on one sequence. -/
def boundedPush (cap : Nat) (l : List PerformanceMetrics) (m : PerformanceMetrics) :
    List PerformanceMetrics :=
  if cap < (l ++ [m]).length then (l ++ [m]).drop 1 else l ++ [m]

/-- The snapshots recorded for one device, in the order of the record steps. -/
def snapshotsFor (d : Str) (events : List (Str × PerformanceMetrics)) : List PerformanceMetrics :=
  (events.filter (fun e => e.1 = d)).map (fun e => e.2)

/-- A run of record steps, one per (device, snapshot) pair. -/
def recordAll (hist : History) (events : List (Str × PerformanceMetrics)) : History :=
  events.foldl (fun h e => recordStep h e.1 e.2) hist

/-- Every sequence of the history holds at most 1000 snapshots. -/
def boundedHistory (hist : History) : Prop := ∀ e ∈ hist, e.2.length ≤ 1000

/-- A snapshot that is all zero but for its time stamp. -/
def sampleAt (t : Int) : PerformanceMetrics :=
  { read_iops := Double.fin 0, write_iops := Double.fin 0, read_throughput_mb := Double.fin 0,
    write_throughput_mb := Double.fin 0, read_latency_ms := Double.fin 0,
    write_latency_ms := Double.fin 0, queue_depth := Double.fin 0, timestamp := t }

/-- A space or a tab, the two characters `parseNVMeOutput` trims. -/
def isBlank (c : Char) : Bool := decide (c ∈ [' ', '\t'])

/-- The text without its leading and trailing spaces and tabs. -/
def stripBlanks (s : Str) : Str := (s.dropWhile isBlank).rdropWhile isBlank

/-- The text without its leading and trailing white space. -/
def stripSpace (s : Str) : Str := (s.dropWhile isspace).rdropWhile isspace

/-- The report of the specification's health-attribute example: the header line
and the row of attribute 5. -/
def smartReport : Str :=
  ("ID# ATTRIBUTE_NAME FLAG VALUE WORST THRESH TYPE UPDATED WHEN_FAILED RAW_VALUE\n"
    ++ "5 Reallocated_Sector_Ct 0x0033 100 100 010 Pre-fail Always - 0").toList

/-- The attribute name contains one of the two wear markers. -/
def hasWearMarker (d : SMARTData) : Prop :=
  "Media_Wearout_Indicator".toList <:+: d.attribute_name
    ∨ "Wear_Leveling_Count".toList <:+: d.attribute_name

instance (d : SMARTData) : Decidable (hasWearMarker d) := by
  unfold hasWearMarker
  infer_instance

/-- A finite value between 0 and 100. -/
def inPercentRange : Double → Prop
  | Double.fin q => 0 ≤ q ∧ q ≤ 100
  | _ => False

/-- The command line of `getNVMeMetrics`. -/
def smartLogCommand (device_path : Str) : Str :=
  "nvme smart-log ".toList ++ device_path ++ " 2>/dev/null".toList

/-- A vendor report whose only line gives `Percentage Used` as 37%. -/
def report37 : Str → Str := fun _ => "Percentage Used : 37%".toList

/-- A vendor report whose only line gives `Percentage Used` as 101%. -/
def report101 : Str → Str := fun _ => "Percentage Used : 101%".toList

/-- A vendor report whose only line gives `Percentage Used` as 150%. -/
def report150 : Str → Str := fun _ => "Percentage Used : 150%".toList

/-- A health report with two wear attributes after an unrelated one. -/
def reportWear : Str → Str := fun _ =>
  ("ID# ATTRIBUTE_NAME VALUE WORST THRESH\n" ++ "9 Power_On_Hours 099 099 000\n"
    ++ "177 Wear_Leveling_Count 095 094 000\n" ++ "233 Media_Wearout_Indicator 080 080 000").toList

/-- The first word of a line as `line_iss >> name` extracts it into a fresh
string: empty when the line holds no word. -/
def firstWord (line : Str) : Str := ((readWord (IStream.ofStr line)).2).getD []

/-- The rotational filter of `discoverSSDs` (line 79) on a row of the listing. -/
def passesRotational (executeCommand : Str → Str) (line : Str) : Bool :=
  contains (executeCommand ("cat /sys/block/".toList ++ firstWord line ++ "/queue/rotational".toList))
      "0".toList
    || (executeCommand ("cat /sys/block/".toList ++ firstWord line ++ "/queue/rotational".toList)).isEmpty

/-- The paths `discoverSSDs` takes from the structured listing: `/dev/` and the
name of every row that passes the rotational filter. -/
def listedPaths (executeCommand : Str → Str) : List Str :=
  ((getlines (executeCommand
      "lsblk -d -o NAME,MODEL,SIZE,SERIAL -n | grep -v -e '^loop' -e '^sr'".toList)).filter
    (passesRotational executeCommand)).map (fun line => "/dev/".toList ++ firstWord line)

/-- The paths `discoverSSDs` takes from the NVMe listing: the first word of every
line after the first that has one. -/
def nvmePaths (executeCommand : Str → Str) : List Str :=
  (((getlines (executeCommand "nvme list 2>/dev/null".toList)).drop 1).map firstWord).filter
    (fun w => !w.isEmpty)

/-- The paths `detectDrives` takes from the name listing: `/dev/` and every
non-empty line. -/
def namePaths (executeCommand : Str → Str) : List Str :=
  ((getlines (executeCommand "lsblk -d -n -o NAME | grep -v -e '^loop' -e '^sr'".toList)).filter
    (fun line => !line.isEmpty)).map (fun line => "/dev/".toList ++ line)

/-- The paths `discoverBlockDevices` takes from its listing: `/dev/` and the name
of every non-empty row without `loop`. -/
def blockPaths (executeCommand : Str → Str) : List Str :=
  ((getlines (executeCommand "lsblk -d -n -o NAME,SIZE,MODEL".toList)).filter
    (fun line => !(line.isEmpty || contains line "loop".toList))).map
    (fun line => "/dev/".toList ++ firstWord line)

/-- Tool outputs of a host with one NVMe drive, listed by both `lsblk` and
`nvme list`; the two name listings repeat a line. -/
def duplicateListing : Str → Str := fun cmd =>
  if cmd = "lsblk -d -o NAME,MODEL,SIZE,SERIAL -n | grep -v -e '^loop' -e '^sr'".toList then
    "nvme0n1 Samsung_SSD_980 500107862016 S649NX0R\n".toList
  else if cmd = "cat /sys/block/nvme0n1/queue/rotational".toList then "0\n".toList
  else if cmd = "nvme list 2>/dev/null".toList then
    "Node SN Model\n/dev/nvme0n1 S649NX0R Samsung_SSD_980\n".toList
  else if cmd = "lsblk -d -n -o NAME | grep -v -e '^loop' -e '^sr'".toList then
    "sda\nsda\n".toList
  else if cmd = "lsblk -d -n -o NAME,SIZE,MODEL".toList then
    "sda 1T WDC\nsda 1T WDC\n".toList
  else []

/-- A character that cannot continue a decimal or hexadecimal literal after its
integer digits: not a digit, not the radix point, not an exponent or base
marker. -/
def endsNumeral (c : Char) : Bool :=
  !isdigit c && decide (c ∉ ['.', 'e', 'E', 'x', 'X'])

/-- The keys of the map are strictly ascending, as in every `std::map`. -/
def mapSorted {V : Type} (m : StdMap V) : Prop :=
  m.Pairwise (fun a b => strLt a.1 b.1 = true)

/-- The (device, snapshot) pairs held by the history, device by device and, for
each device, in stored order. -/
def historyPairs (hist : History) : List (Str × PerformanceMetrics) :=
  hist.flatMap (fun entry => entry.2.map (Prod.mk entry.1))

/-- A row rendering used in examples: the device path, a comma and the time stamp
as a number of digits. -/
def sampleRow (device : Str) (metrics : PerformanceMetrics) : Str :=
  device ++ ',' :: (toString metrics.timestamp).toList

/-- An interval report whose device line has a word where the third value is
expected. -/
def reportBadThird : Str → Str := fun _ =>
  "sda 1.5 2.5 x 4 5 6 7 8 9 10 11 12 13\n".toList

/-- An interval report whose device line ends after two values. -/
def reportShort : Str → Str := fun _ => "sda 1 2\n".toList

/-- A health report with a row whose `worst` is absent and a row whose
`threshold` is not a number. -/
def smartReportDegraded : Str :=
  ("ID# ATTRIBUTE_NAME VALUE WORST THRESH RAW_VALUE\n" ++ "5 Reallocated_Sector_Ct 100\n"
    ++ "9 Power_On_Hours 99 98 x 1234").toList

/-- Tool outputs for a structured listing with the single row
`sda Samsung_SSD_860 500107862016 S3Z9NB0K` of a non-rotational drive. -/
def listingOneRow : Str → Str := fun cmd =>
  if cmd = "lsblk -d -o NAME,MODEL,SIZE,SERIAL -n | grep -v -e '^loop' -e '^sr'".toList then
    "sda Samsung_SSD_860 500107862016 S3Z9NB0K\n".toList
  else if cmd = "cat /sys/block/sda/queue/rotational".toList then "0\n".toList
  else []

/-- The records `discoverSSDs` builds from the structured listing. -/
def structuredRecords (executeCommand : Str → Str) : List DiskInfo :=
  (getlines (executeCommand
    "lsblk -d -o NAME,MODEL,SIZE,SERIAL -n | grep -v -e '^loop' -e '^sr'".toList)).filterMap
    (discoverSSDsRow executeCommand)

/-- The records `discoverSSDs` builds from the NVMe listing. -/
def nvmeRecords (executeCommand : Str → Str) : List DiskInfo :=
  ((getlines (executeCommand "nvme list 2>/dev/null".toList)).drop 1).filterMap discoverNVMeRow

/-- The records `detectDrives` builds from the minimal name listing. -/
def nameListingRecords (executeCommand : Str → Str) : List DiskInfo :=
  (getlines (executeCommand
    "lsblk -d -n -o NAME | grep -v -e '^loop' -e '^sr'".toList)).filterMap listedDrive

/-- The line contains the header marker `ID#`. -/
def isMarkerLine (line : Str) : Prop := "ID#".toList <:+: line

instance (line : Str) : Decidable (isMarkerLine line) := by
  unfold isMarkerLine
  infer_instance

/-- The line is an optional sign followed by at least one decimal digit and
nothing else. -/
def isIntegerText (t : Str) : Bool :=
  !(takeSign t).2.isEmpty && (takeSign t).2.all isdigit

/-- The integer at the start of a line as `line_iss >> data.id` reads it: after
optional white space, an optional sign and a run of digits whose value fits
`int`; `none` when there is no such number. -/
def leadingInt (line : Str) : Option Int :=
  let body := (takeSign (line.dropWhile isspace)).2
  let ds := body.takeWhile isdigit
  if ds.isEmpty then none
  else
    let v : Int :=
      if (takeSign (line.dropWhile isspace)).1 then -(ofDigits10 ds : Int) else (ofDigits10 ds : Int)
    if v < INT_MIN ∨ INT_MAX < v then none else some v

/-- A health report whose data line starts with the token `5abc`. -/
def smartReportPrefixId : Str :=
  ("ID# ATTRIBUTE_NAME VALUE WORST THRESH RAW_VALUE\n" ++ "5abc x 1 2 3").toList

/-- The entry a line contributes to the key/value map: the text before the first
colon and the text after it, each without its leading and trailing spaces and
tabs; `none` for a line without a colon. -/
def keyValueOf (line : Str) : Option (Str × Str) :=
  if ':' ∈ line then
    some (stripBlanks (line.takeWhile (fun c => c != ':')),
      stripBlanks ((line.dropWhile (fun c => c != ':')).drop 1))
  else none

/-- The value of the last entry with the given key. -/
def lastValue (entries : List (Str × Str)) (key : Str) : Option Str :=
  (entries.reverse.find? (fun e => decide (e.1 = key))).map (fun e => e.2)

/-- The white-space separated tokens of a line, in order. -/
def tokens : Str → List Str
  | [] => []
  | c :: cs =>
    if isspace c then tokens cs
    else
      match tokens cs, cs with
      | _, [] => [[c]]
      | ts, d :: _ =>
        if isspace d then [c] :: ts
        else
          match ts with
          | t :: rest => (c :: t) :: rest
          | [] => [[c]]

/-- The value of a token that is a number in full: read on its own as a `double`,
all its characters are consumed and the conversion succeeds. -/
def numericValue (t : Str) : Option Double :=
  if (extractFloat t).2.isEmpty && ((extractFloat t).1.result).2 then
    some ((extractFloat t).1.result).1
  else none

/-- A stream on which no extraction has failed, and whose `eofbit` is set only
when no character is left. -/
def IStream.normal (s : IStream) : Prop :=
  s.failbit = false ∧ (s.eofbit = true → s.buf = [])

/-- The command line of `getPerformanceMetrics`. -/
def iostatCommand (device_path : Str) : Str :=
  "iostat -xm ".toList ++ deviceNameOf device_path ++ " 1 2 2>/dev/null | tail -n 2".toList

/-- An interval report for `sda`: an empty line, the device line, and a second
line that also names the device. -/
def reportIostat : Str → Str := fun _ =>
  ("\n" ++ "sda 1.50 2.50 0.10 0.20 0.00 0.00 - 0.00 n/a 7 0.30 4e-1 0.05 1.00 2.00\n"
    ++ "sda 9 9 9 9 9 9 9 9 9 9 9 9 9 9 9\n").toList

/-- The text neither starts nor ends with a space or a tab. -/
def noBlankEnds (s : Str) : Prop :=
  (∀ c, s.head? = some c → isBlank c = false) ∧ (∀ c, s.getLast? = some c → isBlank c = false)

/-- The pairs are grouped by device, the devices in ascending order: of two pairs
of the list, the earlier has the same device as the later, or a smaller one. -/
def devicesAscending (pairs : List (Str × PerformanceMetrics)) : Prop :=
  pairs.Pairwise (fun p q => p.1 = q.1 ∨ strLt p.1 q.1 = true)

/-! # Lemmas and theorems -/

/-! ## Size conversion -/

theorem foldl_digits_eq (ds : Str) (a : Nat) :
    ds.foldl (fun n c => 10 * n + digitVal c) a
      = Nat.ofDigits 10 ((ds.map digitVal).reverse ++ [a]) := by
  induction ds generalizing a with
  | nil => simp [Nat.ofDigits]
  | cons c cs ih =>
    rw [List.foldl_cons, ih]
    simp [Nat.ofDigits_append, Nat.ofDigits_singleton, Nat.ofDigits_cons]
    ring

theorem ofDigits10_eq (ds : Str) :
    ofDigits10 ds = Nat.ofDigits 10 ((ds.map digitVal).reverse) := by
  unfold ofDigits10
  rw [foldl_digits_eq]
  simp [Nat.ofDigits_append]

theorem isdigit_not_isspace {c : Char} (h : isdigit c = true) : isspace c = false := by
  simp [isdigit, isspace] at *
  omega

theorem takeSign_of_digit {c : Char} (cs : Str) (h : isdigit c = true) :
    takeSign (c :: cs) = (false, c :: cs) := by
  have h1 : c ≠ '-' := by rintro rfl; revert h; decide
  have h2 : c ≠ '+' := by rintro rfl; revert h; decide
  unfold takeSign
  split
  · simp_all
  · simp_all
  · rfl

theorem stoull_digits (ds : Str) (hne : ds ≠ []) (hd : ∀ c ∈ ds, isdigit c = true) :
    stoull ds = if ULLONG_MAX < ofDigits10 ds then none else some (ofDigits10 ds) := by
  obtain ⟨c, cs, rfl⟩ := List.exists_cons_of_ne_nil hne
  have hc : isdigit c = true := hd c (by simp)
  have h1 : (c :: cs).dropWhile isspace = c :: cs := by
    simp [List.dropWhile_cons, isdigit_not_isspace hc]
  have h2 : (c :: cs).takeWhile isdigit = c :: cs := by
    rw [List.takeWhile_eq_self_iff]; exact hd
  simp only [stoull, h1, takeSign_of_digit cs hc, h2]
  simp

theorem sizeBytesOf_eq (s : Str) :
    sizeBytesOf s = if digitsNumber s ≤ ULLONG_MAX then digitsNumber s else 0 := by
  unfold sizeBytesOf digitsNumber
  rw [← ofDigits10_eq]
  by_cases h : s.filter isdigit = []
  · simp [h, ofDigits10]
  · have hd : ∀ c ∈ s.filter isdigit, isdigit c = true := fun c hc => (List.mem_filter.mp hc).2
    simp only [List.isEmpty_iff, h, if_false, stoull_digits _ h hd]
    by_cases h2 : ULLONG_MAX < ofDigits10 (s.filter isdigit)
    · simp [h2, Nat.not_le.mpr h2]
    · simp [h2, Nat.not_lt.mp h2]

/-! ## Ordered maps -/

theorem strLt_irrefl (a : Str) : strLt a a = false := by
  induction a with
  | nil => rfl
  | cons c cs ih => simp [strLt, ih]

theorem strLt_trans : ∀ (a b c : Str), strLt a b = true → strLt b c = true → strLt a c = true
  | _, [], _, h, _ => by cases ‹Str› <;> simp [strLt] at h
  | _, _ :: _, [], _, h => by simp [strLt] at h
  | [], _ :: _, _ :: _, _, _ => by simp [strLt]
  | x :: xs, y :: ys, z :: zs, h1, h2 => by
    simp only [strLt] at h1 h2 ⊢
    split_ifs at h1 h2 ⊢ <;> first
      | rfl
      | exact strLt_trans xs ys zs h1 h2
      | omega

theorem mapFind_mapAlter_self {V : Type} (dflt : V) (f : V → V) (m : StdMap V) (key : Str) :
    mapFind (mapAlter dflt f m key) key = some (f ((mapFind m key).getD dflt)) := by
  induction m with
  | nil => simp [mapAlter, mapFind, strLt_irrefl]
  | cons e rest ih =>
    obtain ⟨k, v⟩ := e
    by_cases h1 : strLt key k = true
    · simp [mapAlter, mapFind, h1, strLt_irrefl]
    · by_cases h2 : key = k
      · subst h2
        simp [mapAlter, mapFind, strLt_irrefl]
      · simp [mapAlter, mapFind, h1, h2, ih]

theorem mapFind_mapAlter_other {V : Type} (dflt : V) (f : V → V) (m : StdMap V)
    (key other : Str) (hne : other ≠ key) :
    mapFind (mapAlter dflt f m key) other = mapFind m other := by
  induction m with
  | nil =>
    by_cases h : strLt other key = true <;> simp [mapAlter, mapFind, h, hne]
  | cons e rest ih =>
    obtain ⟨k, v⟩ := e
    by_cases h1 : strLt key k = true
    · by_cases h3 : strLt other key = true
      · simp [mapAlter, mapFind, h1, h3, strLt_trans _ _ _ h3 h1]
      · simp [mapAlter, mapFind, h1, h3, hne]
    · by_cases h2 : key = k
      · subst h2
        by_cases h3 : strLt other key = true <;> simp [mapAlter, mapFind, strLt_irrefl, h3, hne]
      · by_cases h3 : strLt other k = true
        · simp [mapAlter, mapFind, h1, h2, h3]
        · by_cases h4 : other = k
          · simp [mapAlter, mapFind, h1, h2, h3, h4]
          · simp [mapAlter, mapFind, h1, h2, h3, h4, ih]

theorem mapAlter_forall {V : Type} (P : V → Prop) (dflt : V) (f : V → V) (m : StdMap V)
    (key : Str) (hm : ∀ e ∈ m, P e.2) (hd : P (f dflt)) (hf : ∀ v, P v → P (f v)) :
    ∀ e ∈ mapAlter dflt f m key, P e.2 := by
  induction m with
  | nil =>
    intro e he
    simp only [mapAlter, List.mem_singleton] at he
    subst he
    exact hd
  | cons a rest ih =>
    obtain ⟨k, v⟩ := a
    have hv : P v := hm (k, v) (List.mem_cons_self _ _)
    have hrest : ∀ e ∈ rest, P e.2 := fun e he => hm e (List.mem_cons_of_mem _ he)
    intro e he
    unfold mapAlter at he
    split_ifs at he with h1 h2
    · rcases List.mem_cons.mp he with rfl | he
      · exact hd
      · exact hm e he
    · rcases List.mem_cons.mp he with rfl | he
      · exact hf v hv
      · exact hrest e he
    · rcases List.mem_cons.mp he with rfl | he
      · exact hv
      · exact ih hrest e he

theorem mapFind_mem {V : Type} (m : StdMap V) (key : Str) (v : V)
    (h : mapFind m key = some v) : (key, v) ∈ m := by
  induction m with
  | nil => simp [mapFind] at h
  | cons a rest ih =>
    obtain ⟨k, w⟩ := a
    unfold mapFind at h
    split_ifs at h with h1 h2
    · subst h2
      simp only [Option.some.injEq] at h
      subst h
      exact List.mem_cons_self _ _
    · exact List.mem_cons_of_mem _ (ih h)

theorem mapAlter_mapAlter {V : Type} (dflt : V) (f g : V → V) (m : StdMap V) (key : Str) :
    mapAlter dflt g (mapAlter dflt f m key) key
      = mapAlter dflt (fun v => g (f v)) m key := by
  induction m with
  | nil => simp [mapAlter, strLt_irrefl]
  | cons a rest ih =>
    obtain ⟨k, v⟩ := a
    by_cases h1 : strLt key k = true
    · simp [mapAlter, h1, strLt_irrefl]
    · by_cases h2 : key = k
      · subst h2
        simp [mapAlter, strLt_irrefl]
      · simp [mapAlter, h1, h2, ih]

theorem mapAlter_congr {V : Type} (dflt : V) (f g : V → V) (m : StdMap V) (key : Str)
    (h : f ((mapFind m key).getD dflt) = g ((mapFind m key).getD dflt)) :
    mapAlter dflt f m key = mapAlter dflt g m key := by
  induction m with
  | nil => simpa [mapAlter, mapFind] using h
  | cons a rest ih =>
    obtain ⟨k, v⟩ := a
    by_cases h1 : strLt key k = true
    · simpa [mapAlter, mapFind, h1] using h
    · by_cases h2 : key = k
      · subst h2
        simpa [mapAlter, mapFind, strLt_irrefl] using h
      · simp only [mapFind, h1, h2, if_false] at h
        simp [mapAlter, h1, h2, ih h]

/-! ## History bounding -/

theorem historyOf_mapAlter_self (hist : History) (d : Str)
    (f : List PerformanceMetrics → List PerformanceMetrics) :
    historyOf (mapAlter [] f hist d) d = f (historyOf hist d) := by
  simp [historyOf, mapFind_mapAlter_self]

theorem historyOf_mapAlter_other (hist : History) (d other : Str)
    (f : List PerformanceMetrics → List PerformanceMetrics) (hne : other ≠ d) :
    historyOf (mapAlter [] f hist d) other = historyOf hist other := by
  simp [historyOf, mapFind_mapAlter_other _ _ _ _ _ hne]

theorem historyOf_recordStep_self (hist : History) (d : Str) (m : PerformanceMetrics) :
    historyOf (recordStep hist d m) d = boundedPush 1000 (historyOf hist d) m := by
  unfold recordStep boundedPush
  dsimp only
  rw [historyOf_mapAlter_self]
  split_ifs with h
  · rw [historyOf_mapAlter_self, historyOf_mapAlter_self]
  · rw [historyOf_mapAlter_self]

theorem historyOf_recordStep_other (hist : History) (d other : Str) (m : PerformanceMetrics)
    (hne : other ≠ d) : historyOf (recordStep hist d m) other = historyOf hist other := by
  unfold recordStep
  dsimp only
  split_ifs
  · rw [historyOf_mapAlter_other _ _ _ _ hne, historyOf_mapAlter_other _ _ _ _ hne]
  · rw [historyOf_mapAlter_other _ _ _ _ hne]

theorem boundedPush_eq_drop (cap : Nat) (l : List PerformanceMetrics) (y : PerformanceMetrics)
    (hl : l.length ≤ cap) :
    boundedPush cap l y = (l ++ [y]).drop ((l ++ [y]).length - cap) := by
  unfold boundedPush
  have hlen : (l ++ [y]).length = l.length + 1 := by simp
  split_ifs with h
  · have e : (l ++ [y]).length - cap = 1 := by omega
    rw [e]
  · have e : (l ++ [y]).length - cap = 0 := by omega
    rw [e, List.drop_zero]

theorem boundedPush_length_le (cap : Nat) (l : List PerformanceMetrics) (y : PerformanceMetrics)
    (hl : l.length ≤ cap) : (boundedPush cap l y).length ≤ cap := by
  unfold boundedPush
  have hlen : (l ++ [y]).length = l.length + 1 := by simp
  split_ifs with h
  · rw [List.length_drop]; omega
  · omega

theorem bounded_fold (cap : Nat) (ys l : List PerformanceMetrics) (hl : l.length ≤ cap) :
    ys.foldl (boundedPush cap) l = (l ++ ys).drop ((l ++ ys).length - cap) := by
  induction ys generalizing l with
  | nil => simp [Nat.sub_eq_zero_of_le hl]
  | cons y ys ih =>
    rw [List.foldl_cons, ih _ (boundedPush_length_le cap l y hl), boundedPush_eq_drop cap l y hl]
    have hlen : (l ++ [y]).length = l.length + 1 := by simp
    have hle : (l ++ [y]).length - cap ≤ (l ++ [y]).length := Nat.sub_le _ _
    rw [← List.drop_append_of_le_length hle, List.drop_drop]
    have e1 : l ++ [y] ++ ys = l ++ y :: ys := by simp
    rw [e1]
    congr 1
    simp only [List.length_append, List.length_drop, List.length_cons, List.length_nil]
    omega

theorem historyOf_foldl_recordStep (d : Str) (events : List (Str × PerformanceMetrics))
    (hist : History) :
    historyOf (recordAll hist events) d
      = (snapshotsFor d events).foldl (boundedPush 1000) (historyOf hist d) := by
  unfold recordAll
  induction events generalizing hist with
  | nil => rfl
  | cons e es ih =>
    rw [List.foldl_cons, ih]
    by_cases h : e.1 = d
    · have : snapshotsFor d (e :: es) = e.2 :: snapshotsFor d es := by
        simp [snapshotsFor, h]
      rw [this, List.foldl_cons, ← h, historyOf_recordStep_self]
    · have : snapshotsFor d (e :: es) = snapshotsFor d es := by
        simp [snapshotsFor, h]
      rw [this, historyOf_recordStep_other _ _ _ _ (Ne.symm h)]

theorem historyOf_recordAll (hist : History) (d : Str)
    (events : List (Str × PerformanceMetrics)) (h0 : historyOf hist d = []) :
    historyOf (recordAll hist events) d
      = (snapshotsFor d events).drop
          ((snapshotsFor d events).length - min (snapshotsFor d events).length 1000) := by
  have hle : (historyOf hist d).length ≤ 1000 := by rw [h0]; exact Nat.zero_le _
  rw [historyOf_foldl_recordStep, bounded_fold 1000 _ _ hle, h0, List.nil_append]
  have e : ∀ n c : Nat, n - c = n - min n c := by intro n c; omega
  rw [e]

theorem recordStep_eq_mapAlter (hist : History) (d : Str) (m : PerformanceMetrics) :
    recordStep hist d m = mapAlter [] (fun v => boundedPush 1000 v m) hist d := by
  unfold recordStep
  dsimp only
  have h1 : historyOf (mapAlter [] (fun v => v ++ [m]) hist d) d = historyOf hist d ++ [m] := by
    simp [historyOf, mapFind_mapAlter_self]
  rw [h1]
  split_ifs with h
  · rw [mapAlter_mapAlter]
    apply mapAlter_congr
    exact (if_pos h).symm
  · apply mapAlter_congr
    exact (if_neg h).symm

theorem boundedHistory_recordStep (hist : History) (d : Str) (m : PerformanceMetrics)
    (h : boundedHistory hist) : boundedHistory (recordStep hist d m) := by
  rw [recordStep_eq_mapAlter]
  exact mapAlter_forall (fun v : List PerformanceMetrics => v.length ≤ 1000) []
    (fun v => boundedPush 1000 v m) hist d h
    (boundedPush_length_le 1000 [] m (Nat.zero_le _))
    (fun v hv => boundedPush_length_le 1000 v m hv)

theorem boundedHistory_step (fmt : Str → PerformanceMetrics → Str) (st : MonitorState)
    (op : MonitorOp) (h : boundedHistory st.metrics_history_) :
    boundedHistory (MonitorState.step fmt st op).metrics_history_ := by
  cases op with
  | record d m => exact boundedHistory_recordStep _ d m h
  | save isOpen => exact h

theorem boundedHistory_run (fmt : Str → PerformanceMetrics → Str) (ops : List MonitorOp)
    (st : MonitorState) (h : boundedHistory st.metrics_history_) :
    boundedHistory (MonitorState.run fmt st ops).metrics_history_ := by
  unfold MonitorState.run
  induction ops generalizing st with
  | nil => exact h
  | cons op ops ih =>
    rw [List.foldl_cons]
    exact ih _ (boundedHistory_step fmt st op h)

theorem historyOf_length_le (hist : History) (h : boundedHistory hist) (d : Str) :
    (historyOf hist d).length ≤ 1000 := by
  unfold historyOf
  cases hf : mapFind hist d with
  | none => exact Nat.zero_le _
  | some v => exact h (d, v) (mapFind_mem hist d v hf)

theorem snapshotsFor_same (d : Str) (xs : List PerformanceMetrics) :
    snapshotsFor d (xs.map (Prod.mk d)) = xs := by
  induction xs with
  | nil => rfl
  | cons x xs ih =>
    unfold snapshotsFor at ih ⊢
    simp only [List.map_cons, List.filter_cons, decide_True, if_true, List.cons.injEq, true_and]
    exact ih

/-! ## Claims on the size conversion and on the history store -/

/-- C9, counterexample: the size string `18446744073709551616` has digits, and
the number they spell is 2^64, yet the conversion yields 0, because
`std::stoull` throws `out_of_range` and the `catch` stores 0. -/
theorem sizeBytesOf_overflow_counterexample :
    (∃ c ∈ "18446744073709551616".toList, isdigit c = true)
      ∧ digitsNumber "18446744073709551616".toList = 2 ^ 64
      ∧ sizeBytesOf "18446744073709551616".toList = 0 := by
  refine ⟨⟨'1', by decide, by decide⟩, ?_, by decide⟩
  rw [digitsNumber, ← ofDigits10_eq]
  decide

/-- C9, amended: for every size string the conversion returns a value (it never
raises); a string without a decimal digit gives 0; otherwise the result is the
number spelled by the digit characters of the string in order when that number
is at most 2^64 - 1, and 0 when it is larger. -/
theorem sizeBytesOf_spec (s : Str) :
    ((∀ c ∈ s, isdigit c = false) → sizeBytesOf s = 0)
      ∧ sizeBytesOf s = if digitsNumber s ≤ 2 ^ 64 - 1 then digitsNumber s else 0 := by
  refine ⟨fun h => ?_, sizeBytesOf_eq s⟩
  have : s.filter isdigit = [] := by
    rw [List.filter_eq_nil_iff]
    intro c hc
    simp [h c hc]
  simp [sizeBytesOf, this]

/-- C9, witness: the three size strings of the specification. -/
theorem sizeBytesOf_spec_witness :
    sizeBytesOf "512110190592".toList = 512110190592
      ∧ sizeBytesOf "abc".toList = 0 ∧ sizeBytesOf "".toList = 0 :=
  ⟨(sizeBytesOf_spec "512110190592".toList).2.trans
      (by rw [digitsNumber, ← ofDigits10_eq]; decide),
    (sizeBytesOf_spec "abc".toList).1 (by decide),
    (sizeBytesOf_spec "".toList).1 (by decide)⟩

/-- C3: starting from a history in which the device has an empty sequence, after
any run of record steps the sequence of the device is exactly the last
min(n, 1000) of the n snapshots recorded for it, in recording order, whatever
was recorded for other devices in between; it has min(n, 1000) entries; and
after 1001 snapshots `x :: xs` it is `xs`, the first one being gone. -/
theorem history_bounding (hist : History) (d : Str) (events : List (Str × PerformanceMetrics))
    (h0 : historyOf hist d = []) :
    historyOf (recordAll hist events) d
        = (snapshotsFor d events).drop
            ((snapshotsFor d events).length - min (snapshotsFor d events).length 1000)
      ∧ (historyOf (recordAll hist events) d).length = min (snapshotsFor d events).length 1000
      ∧ ∀ x xs, snapshotsFor d events = x :: xs → xs.length = 1000 →
          historyOf (recordAll hist events) d = xs := by
  have key := historyOf_recordAll hist d events h0
  refine ⟨key, ?_, ?_⟩
  · rw [key, List.length_drop]
    have e : ∀ n c : Nat, n - (n - min n c) = min n c := by intro n c; omega
    exact e _ _
  · intro x xs hx hlen
    rw [key, hx]
    have e : (x :: xs).length - min (x :: xs).length 1000 = 1 := by
      rw [List.length_cons, hlen]
      have e2 : ∀ c : Nat, c + 1 - min (c + 1) c = 1 := by intro c; omega
      exact e2 _
    rw [e]
    rfl

/-- C3, witness: on a history that holds one snapshot of `/dev/sdb` only, 1001
snapshots with time stamps 0 to 1000 recorded for `/dev/sda` leave the 1000
snapshots with time stamps 1 to 1000. -/
theorem history_bounding_witness :
    historyOf
        (recordAll [("/dev/sdb".toList, [sampleAt 7])]
          ((sampleAt 0 :: (List.range 1000).map (fun i : Nat => sampleAt (Int.ofNat i + 1))).map
            (Prod.mk "/dev/sda".toList)))
        "/dev/sda".toList
      = (List.range 1000).map (fun i : Nat => sampleAt (Int.ofNat i + 1)) :=
  (history_bounding [("/dev/sdb".toList, [sampleAt 7])] "/dev/sda".toList _ (by decide)).2.2
    (sampleAt 0) ((List.range 1000).map (fun i : Nat => sampleAt (Int.ofNat i + 1)))
    (snapshotsFor_same _ _) (by rw [List.length_map, List.length_range])

/-- C4: the bound of 1000 snapshots per device holds for a fresh object, is kept
by every record step and by every call of `saveMetricsHistory`, and so holds in
every state reached from a fresh object by such steps, for every device. -/
theorem history_invariant (fmt : Str → PerformanceMetrics → Str) (file : List Str) :
    boundedHistory (MonitorState.init file).metrics_history_
      ∧ (∀ (st : MonitorState) (op : MonitorOp), boundedHistory st.metrics_history_ →
          boundedHistory (MonitorState.step fmt st op).metrics_history_)
      ∧ ∀ ops : List MonitorOp,
          boundedHistory (MonitorState.run fmt (MonitorState.init file) ops).metrics_history_
            ∧ ∀ d : Str,
                (historyOf
                  (MonitorState.run fmt (MonitorState.init file) ops).metrics_history_ d).length
                  ≤ 1000 := by
  have h0 : boundedHistory (MonitorState.init file).metrics_history_ := by
    intro e he
    cases he
  refine ⟨h0, fun st op h => boundedHistory_step fmt st op h, fun ops => ?_⟩
  have h := boundedHistory_run fmt ops (MonitorState.init file) h0
  exact ⟨h, historyOf_length_le _ h⟩

/-! ## Streams and the name loop -/

theorem length_dropWhile_le {α : Type} (p : α → Bool) (l : List α) :
    (l.dropWhile p).length ≤ l.length := by
  induction l with
  | nil => simp
  | cons a l ih =>
    rw [List.dropWhile_cons]
    split_ifs
    · exact Nat.le_succ_of_le ih
    · exact Nat.le_refl _

theorem readWord_shrinks (s s1 : IStream) (w : Str) (h : readWord s = (s1, some w)) :
    s1.buf.length < s.buf.length := by
  unfold readWord at h
  by_cases hg : (!s.good) = true
  · rw [if_pos hg] at h
    cases h
  · rw [if_neg hg] at h
    dsimp only at h
    by_cases hb : (s.buf.dropWhile isspace).isEmpty = true
    · rw [if_pos hb] at h
      cases h
    · rw [if_neg hb] at h
      have e : s1.buf = List.dropWhile (fun c => !isspace c) (s.buf.dropWhile isspace) := by
        cases h
        rfl
      rw [e]
      have h1 := length_dropWhile_le isspace s.buf
      cases hb' : s.buf.dropWhile isspace with
      | nil => simp [hb'] at hb
      | cons c cs =>
        have hc : isspace c = false := by
          have := List.head_dropWhile_not isspace s.buf (by simp [hb'])
          simpa [hb'] using this
        rw [hb'] at h1
        rw [List.dropWhile_cons]
        simp only [hc, Bool.not_false, if_true]
        have h2 := length_dropWhile_le (fun c => !isspace c) cs
        simp only [List.length_cons] at h1
        omega

theorem nameLoop_succ (fuel : Nat) (s : IStream) (name : Str) (cur : Int)
    (h : s.buf.length < fuel) :
    nameLoop (fuel + 1) s name cur = nameLoop fuel s name cur := by
  induction fuel generalizing s name cur with
  | zero => exact absurd h (Nat.not_lt_zero _)
  | succ n ih =>
    rw [nameLoop, nameLoop]
    cases hr : readWord s with
    | mk s1 ow =>
      cases ow with
      | none => rfl
      | some word =>
        have hlt : s1.buf.length < n := by
          have := readWord_shrinks s s1 word hr
          omega
        cases word with
        | nil => exact ih _ _ _ hlt
        | cons c cs =>
          dsimp only
          split_ifs
          · cases stoi (c :: cs) with
            | none => exact ih _ _ _ hlt
            | some v => rfl
          · exact ih _ _ _ hlt

theorem nameLoop_fuel (extra : Nat) (s : IStream) (name : Str) (cur : Int) :
    nameLoop (s.buf.length + 1 + extra) s name cur = nameLoop (s.buf.length + 1) s name cur := by
  induction extra with
  | zero => rfl
  | succ k ih =>
    have e : s.buf.length + 1 + (k + 1) = (s.buf.length + 1 + k) + 1 := rfl
    rw [e, nameLoop_succ _ s name cur (by omega), ih]

/-! ## Lines, colon search and trimming -/

theorem getlines_of_no_newline (s : Str) (h : '\n' ∉ s) (hne : s ≠ []) : getlines s = [s] := by
  induction s with
  | nil => exact absurd rfl hne
  | cons c cs ih =>
    have hc : c ≠ '\n' := fun e => h (e ▸ List.mem_cons_self _ _)
    have hcs : '\n' ∉ cs := fun e => h (List.mem_cons_of_mem _ e)
    cases cs with
    | nil => simp [getlines, hc]
    | cons d ds =>
      have := ih hcs (by simp)
      simp [getlines, hc] at this ⊢
      rw [this]

theorem getlines_append_newline (s : Str) (h : '\n' ∉ s) : getlines (s ++ ['\n']) = [s] := by
  induction s with
  | nil => simp [getlines]
  | cons c cs ih =>
    have hc : c ≠ '\n' := fun e => h (e ▸ List.mem_cons_self _ _)
    have hcs : '\n' ∉ cs := fun e => h (List.mem_cons_of_mem _ e)
    have := ih hcs
    show getlines (c :: (cs ++ ['\n'])) = [c :: cs]
    simp only [getlines, hc, if_false, this]

theorem find_char_append (c : Char) (before after : Str) (h : c ∉ before) :
    find (before ++ c :: after) [c] = some before.length := by
  induction before with
  | nil => simp [find, startsWith]
  | cons x xs ih =>
    have hx : x ≠ c := fun e => h (e ▸ List.mem_cons_self _ _)
    have hxs : c ∉ xs := fun e => h (List.mem_cons_of_mem _ e)
    simp [find, startsWith, hx, ih hxs]

theorem find_char_none (c : Char) (s : Str) (h : c ∉ s) : find s [c] = none := by
  induction s with
  | nil => simp [find, startsWith]
  | cons x xs ih =>
    have hx : x ≠ c := fun e => h (e ▸ List.mem_cons_self _ _)
    have hxs : c ∉ xs := fun e => h (List.mem_cons_of_mem _ e)
    simp [find, startsWith, hx, ih hxs]

theorem erase_first_not_of (s chars : Str) :
    erase s 0 (find_first_not_of s chars) = some (s.dropWhile (fun c => decide (c ∈ chars))) := by
  have key : ∀ t : Str, (match find_first_not_of t chars with
      | none => ([] : Str)
      | some k => t.drop k) = t.dropWhile (fun c => decide (c ∈ chars)) := by
    intro t
    induction t with
    | nil => simp [find_first_not_of]
    | cons x xs ih =>
      by_cases hx : x ∈ chars
      · simp only [find_first_not_of, hx, if_true, List.dropWhile_cons, decide_True]
        rw [← ih]
        cases find_first_not_of xs chars <;> simp
      · simp [find_first_not_of, hx, List.dropWhile_cons]
  rw [← key s]
  unfold erase
  cases find_first_not_of s chars <;> simp

theorem rdropWhile_cons (p : Char → Bool) (c : Char) (cs : Str) :
    (c :: cs).rdropWhile p
      = if cs.rdropWhile p = [] then (if p c then [] else [c]) else c :: cs.rdropWhile p := by
  unfold List.rdropWhile
  rw [List.reverse_cons, List.dropWhile_append]
  by_cases h : (List.dropWhile p cs.reverse) = []
  · simp [h, List.dropWhile_cons]
    split_ifs <;> simp
  · simp [h]

theorem take_last_not_of (s chars : Str) :
    posPlusOne (find_last_not_of s chars) ≤ s.length
      ∧ s.take (posPlusOne (find_last_not_of s chars))
          = s.rdropWhile (fun c => decide (c ∈ chars))
      ∧ (find_last_not_of s chars = none → s.rdropWhile (fun c => decide (c ∈ chars)) = []) := by
  induction s with
  | nil => simp [find_last_not_of, posPlusOne]
  | cons x xs ih =>
    obtain ⟨h1, h2, h3⟩ := ih
    rw [rdropWhile_cons]
    cases hf : find_last_not_of xs chars with
    | some i =>
      rw [hf] at h1 h2
      simp only [posPlusOne] at h1 h2
      have hne : xs.rdropWhile (fun c => decide (c ∈ chars)) ≠ [] := by
        rw [← h2]
        simp
        rintro rfl
        simp at h1
      simp only [find_last_not_of, hf, posPlusOne, List.length_cons, List.take_succ_cons, hne,
        if_false, h2]
      exact ⟨by omega, trivial, fun h => by cases h⟩
    | none =>
      have hnil := h3 hf
      by_cases hx : x ∈ chars
      · simp [find_last_not_of, hf, hx, posPlusOne, hnil]
      · simp [find_last_not_of, hf, hx, posPlusOne, hnil]

theorem trimBlanks_eq (s : Str) : trimBlanks s = some (stripBlanks s) := by
  unfold trimBlanks
  rw [erase_first_not_of]
  dsimp only
  obtain ⟨h1, h2, _⟩ := take_last_not_of (s.dropWhile (fun c => decide (c ∈ [' ', '\t']))) [' ', '\t']
  unfold erase
  rw [if_neg (by omega)]
  simp only [h2]
  rfl

theorem parseNVMeLine_colon (metrics : StdMap Str) (before after : Str) (hcolon : ':' ∉ before) :
    parseNVMeLine metrics (before ++ ':' :: after)
      = some (mapSet metrics (stripBlanks before) (stripBlanks after) []) := by
  unfold parseNVMeLine
  rw [find_char_append ':' before after hcolon]
  have h1 : substr (before ++ ':' :: after) 0 (some before.length) = some before := by
    simp [substr]
  have h2 : substr (before ++ ':' :: after) (before.length + 1) none = some after := by
    have hlen : ¬ (before ++ ':' :: after).length < before.length + 1 := by
      simp
    simp only [substr, hlen, if_false]
    rw [List.drop_append_eq_append_drop]
    simp
  simp only [h1, h2, trimBlanks_eq]

theorem parseNVMeLine_no_colon (metrics : StdMap Str) (line : Str) (h : ':' ∉ line) :
    parseNVMeLine metrics line = some metrics := by
  unfold parseNVMeLine
  rw [find_char_none ':' line h]

theorem parseNVMeLine_isSome (metrics : StdMap Str) (line : Str) :
    ∃ metrics1, parseNVMeLine metrics line = some metrics1 := by
  by_cases h : ':' ∈ line
  · obtain ⟨before, after, rfl, hb⟩ := List.eq_append_cons_of_mem h
    exact ⟨_, parseNVMeLine_colon metrics before after hb⟩
  · exact ⟨_, parseNVMeLine_no_colon metrics line h⟩

theorem parseNVMeLines_isSome (lines : List Str) (metrics : StdMap Str) :
    ∃ result, parseNVMeLines lines metrics = some result := by
  induction lines generalizing metrics with
  | nil => exact ⟨metrics, rfl⟩
  | cons line rest ih =>
    obtain ⟨m1, h1⟩ := parseNVMeLine_isSome metrics line
    obtain ⟨r, hr⟩ := ih m1
    exact ⟨r, by rw [parseNVMeLines, h1]; exact hr⟩

theorem parseNVMeOutput_isSome (output : Str) :
    ∃ metrics, parseNVMeOutput output = some metrics :=
  parseNVMeLines_isSome _ _

/-! ## Claims on the two decoders -/

/-- C1: on the report of the specification (the header line, then the row
`5 Reallocated_Sector_Ct 0x0033 100 100 010 Pre-fail Always - 0`) the decoder
returns one record with id 5, but the flag token `0x0033` starts with a digit
and `std::stoi` reads it as 0, so `current_value` is 0, `worst_value` is the
VALUE column (100) and `threshold` is the WORST column (100), not 10; the
THRESH column ends up in `raw_value`. -/
theorem parseSMARTOutput_flag_read_as_current (indet : Int) :
    parseSMARTOutput indet smartReport
      = [{ id := 5, attribute_name := "Reallocated_Sector_Ct".toList, current_value := 0,
           worst_value := 100, threshold := 100,
           raw_value := " 010 Pre-fail Always - 0".toList }] := by
  rfl

/-- C2, counterexample: on the single line `k:v` followed by a carriage return,
the value keeps the carriage return, which is white space; only spaces and tabs
are trimmed. -/
theorem parseNVMeOutput_whitespace_counterexample :
    parseNVMeOutput "k:v\r".toList = some [("k".toList, "v\r".toList)]
      ∧ isspace '\r' = true
      ∧ stripSpace "v\r".toList = "v".toList := by
  decide

/-- C2, amended: for a text that is one line `before:after` (no colon in
`before`, no line break in the line, with or without a final line break), the
decoder returns the map with the single entry whose key is `before` and whose
value is `after` (later colons included), each without its leading and trailing
spaces and tabs; other white space is kept. -/
theorem parseNVMeOutput_single_line (before after : Str) (hcolon : ':' ∉ before)
    (hline : '\n' ∉ before ++ ':' :: after) :
    parseNVMeOutput (before ++ ':' :: after) = some [(stripBlanks before, stripBlanks after)]
      ∧ parseNVMeOutput (before ++ ':' :: after ++ ['\n'])
          = some [(stripBlanks before, stripBlanks after)] := by
  have hl1 : getlines (before ++ ':' :: after) = [before ++ ':' :: after] :=
    getlines_of_no_newline _ hline (by simp)
  have hl2 : getlines (before ++ ':' :: after ++ ['\n']) = [before ++ ':' :: after] := by
    have := getlines_append_newline _ hline
    simpa using this
  constructor
  · rw [parseNVMeOutput, hl1, parseNVMeLines, parseNVMeLine_colon [] before after hcolon]
    rfl
  · rw [parseNVMeOutput, hl2, parseNVMeLines, parseNVMeLine_colon [] before after hcolon]
    rfl

/-- C2, witness: the line `Percentage Used:                      3%` gives the
key `Percentage Used` and the value `3%`. -/
theorem parseNVMeOutput_single_line_witness :
    parseNVMeOutput ("Percentage Used".toList ++ ':' :: "                      3%".toList)
      = some [("Percentage Used".toList, "3%".toList)] :=
  (parseNVMeOutput_single_line "Percentage Used".toList "                      3%".toList
    (by decide) (by decide)).1.trans (by decide)

/-! ## Substring search and the lifetime estimate -/

theorem startsWith_iff (s needle : Str) : startsWith s needle = true ↔ needle <+: s := by
  induction needle generalizing s with
  | nil => cases s <;> simp [startsWith]
  | cons n ns ih =>
    cases s with
    | nil => simp [startsWith]
    | cons c cs =>
      simp only [startsWith, Bool.and_eq_true, beq_iff_eq, ih, List.cons_prefix_cons]
      constructor
      · rintro ⟨rfl, h⟩; exact ⟨rfl, h⟩
      · rintro ⟨rfl, h⟩; exact ⟨rfl, h⟩

theorem contains_iff (s needle : Str) : contains s needle = true ↔ needle <:+: s := by
  unfold contains
  induction s with
  | nil =>
    simp only [find]
    by_cases h : startsWith [] needle = true
    · simp only [h, if_true, Option.isSome_some, true_iff]
      exact ((startsWith_iff _ _).mp h).isInfix
    · simp only [h, if_false, Option.isSome_none, Bool.false_eq_true, false_iff]
      intro hin
      apply h
      rw [startsWith_iff]
      have : needle = [] := List.eq_nil_of_infix_nil hin
      rw [this]
  | cons c cs ih =>
    simp only [find]
    rw [List.infix_cons_iff]
    by_cases h : startsWith (c :: cs) needle = true
    · simp only [h, if_true, Option.isSome_some, true_iff]
      exact Or.inl ((startsWith_iff _ _).mp h)
    · have h' : startsWith (c :: cs) needle = false := by simpa using h
      rw [h']
      simp only [Bool.false_eq_true, if_false, Option.isSome_map']
      rw [ih]
      constructor
      · exact Or.inr
      · rintro (hp | hi)
        · exact absurd ((startsWith_iff _ _).mpr hp) h
        · exact hi

theorem isWearAttribute_iff (d : SMARTData) : isWearAttribute d = true ↔ hasWearMarker d := by
  simp only [isWearAttribute, Bool.or_eq_true, contains_iff, hasWearMarker]

theorem lifeFromSMART_eq (L : List SMARTData) :
    lifeFromSMART L
      = match L.find? (fun d => decide (hasWearMarker d)) with
        | some d => Double.ofInt d.current_value
        | none => Double.fin (-1) := by
  induction L with
  | nil => rfl
  | cons d rest ih =>
    by_cases h : isWearAttribute d = true
    · have h' : hasWearMarker d := (isWearAttribute_iff d).mp h
      simp [lifeFromSMART, h, List.find?_cons, h']
    · have h' : ¬ hasWearMarker d := fun hh => h ((isWearAttribute_iff d).mpr hh)
      simp only [lifeFromSMART, h, List.find?_cons, h', decide_False]
      exact ih

theorem getNVMeMetrics_of_nvme (executeCommand : Str → Str) (device_path : Str) (metrics : StdMap Str)
    (hpath : "nvme".toList <:+: device_path)
    (hreport : parseNVMeOutput (executeCommand (smartLogCommand device_path)) = some metrics) :
    getNVMeMetrics executeCommand device_path = metrics := by
  have hc : contains device_path "nvme".toList = true := (contains_iff _ _).mpr hpath
  unfold getNVMeMetrics
  simp only [hc, Bool.not_true, Bool.false_eq_true, if_false]
  unfold smartLogCommand at hreport
  rw [hreport]

theorem sub_hundred_eq_unknown (v : Double) :
    Double.sub (Double.fin 100) v = Double.fin (-1) ↔ v = Double.fin 101 := by
  cases v with
  | fin q =>
    simp only [Double.sub, Double.fin.injEq]
    constructor
    · intro h; linarith
    · intro h; rw [h]; norm_num
  | inf neg => simp [Double.sub]
  | nan => simp [Double.sub]

theorem sub_hundred_inRange (v : Double) :
    inPercentRange (Double.sub (Double.fin 100) v) ↔ inPercentRange v := by
  cases v with
  | fin q =>
    simp only [Double.sub, inPercentRange]
    constructor
    · rintro ⟨h1, h2⟩; constructor <;> linarith
    · rintro ⟨h1, h2⟩; constructor <;> linarith
  | inf neg => simp [Double.sub, inPercentRange]
  | nan => simp [Double.sub, inPercentRange]

theorem estimate_on_nvme_path (executeCommand : Str → Str) (indet : Int) (device_path : Str)
    (hpath : "nvme".toList <:+: device_path) :
    getEstimatedLifeRemaining executeCommand indet device_path
      = lifeFromNVMe (getNVMeMetrics executeCommand device_path) := by
  have hc : contains device_path "nvme".toList = true := (contains_iff _ _).mpr hpath
  simp only [getEstimatedLifeRemaining, hc, if_true]

theorem estimate_on_sata_path (executeCommand : Str → Str) (indet : Int) (device_path : Str)
    (hpath : ¬ "nvme".toList <:+: device_path) :
    getEstimatedLifeRemaining executeCommand indet device_path
      = lifeFromSMART (getSMARTData executeCommand indet device_path) := by
  have hc : contains device_path "nvme".toList = false := by
    cases h : contains device_path "nvme".toList
    · rfl
    · exact absurd ((contains_iff _ _).mp h) hpath
  simp only [getEstimatedLifeRemaining, hc, Bool.false_eq_true, if_false]

theorem ofInt_eq_unknown (n : Int) : Double.ofInt n = Double.fin (-1) ↔ n = -1 := by
  simp only [Double.ofInt, Double.fin.injEq]
  constructor
  · intro h; exact_mod_cast h
  · intro h; rw [h]; norm_num

theorem ofInt_inRange (n : Int) : inPercentRange (Double.ofInt n) ↔ 0 ≤ n ∧ n ≤ 100 := by
  simp only [Double.ofInt, inPercentRange]
  constructor
  · rintro ⟨h1, h2⟩
    exact ⟨by exact_mod_cast h1, by exact_mod_cast h2⟩
  · rintro ⟨h1, h2⟩
    exact ⟨by exact_mod_cast h1, by exact_mod_cast h2⟩

theorem lifeFromNVMe_absent (metrics : StdMap Str)
    (h : mapFind metrics "Percentage Used".toList = none) :
    lifeFromNVMe metrics = Double.fin (-1) := by
  simp only [lifeFromNVMe, h]
  rfl

theorem lifeFromNVMe_not_numeric (metrics : StdMap Str) (text : Str)
    (h : mapFind metrics "Percentage Used".toList = some text) (hs : stod text = none) :
    lifeFromNVMe metrics = Double.fin (-1) := by
  simp only [lifeFromNVMe, h, hs]
  rfl

theorem lifeFromNVMe_numeric (metrics : StdMap Str) (text : Str) (v : Double)
    (h : mapFind metrics "Percentage Used".toList = some text) (hs : stod text = some v) :
    lifeFromNVMe metrics = Double.sub (Double.fin 100) v := by
  simp only [lifeFromNVMe, h, hs]

theorem isdigit_lowerChar {c : Char} (h : isdigit c = true) : lowerChar c = c := by
  unfold lowerChar
  have : ¬ (65 ≤ c.toNat ∧ c.toNat ≤ 90) := by
    simp [isdigit] at h
    omega
  rw [if_neg this]

theorem isdigit_ne {c d : Char} (h : isdigit c = true) (hd : isdigit d = false) : c ≠ d := by
  rintro rfl
  rw [h] at hd
  cases hd

theorem takeWhile_digits_append (ds suffix : Str) (hd : ∀ c ∈ ds, isdigit c = true)
    (hs : ∀ c, suffix.head? = some c → isdigit c = false) :
    (ds ++ suffix).takeWhile isdigit = ds ∧ (ds ++ suffix).dropWhile isdigit = suffix := by
  induction ds with
  | nil =>
    cases suffix with
    | nil => simp
    | cons c cs =>
      have := hs c rfl
      simp [List.takeWhile_cons, List.dropWhile_cons, this]
  | cons d ds ih =>
    have hd' : isdigit d = true := hd d (List.mem_cons_self _ _)
    obtain ⟨h1, h2⟩ := ih (fun c hc => hd c (List.mem_cons_of_mem _ hc))
    simp [List.takeWhile_cons, List.dropWhile_cons, hd', h1, h2]

theorem scanMagnitude_digits (ds suffix : Str) (hne : ds ≠ [])
    (hd : ∀ c ∈ ds, isdigit c = true)
    (hs : ∀ c, suffix.head? = some c → endsNumeral c = true) :
    scanMagnitude (ds ++ suffix) = some (Double.fin (ofDigits10 ds)) := by
  obtain ⟨d, ds', rfl⟩ := List.exists_cons_of_ne_nil hne
  have hd0 : isdigit d = true := hd d (List.mem_cons_self _ _)
  have hs' : ∀ c, suffix.head? = some c → isdigit c = false := by
    intro c hc
    have := hs c hc
    simp only [endsNumeral, Bool.and_eq_true, Bool.not_eq_true'] at this
    exact this.1
  obtain ⟨h1, h2⟩ := takeWhile_digits_append (d :: ds') suffix hd hs'
  have hinf : startsWith ((d :: ds' ++ suffix).map lowerChar) "inf".toList = false := by
    have : d ≠ 'i' := isdigit_ne hd0 (by decide)
    simp [startsWith, isdigit_lowerChar hd0, this]
  have hnan : startsWith ((d :: ds' ++ suffix).map lowerChar) "nan".toList = false := by
    have : d ≠ 'n' := isdigit_ne hd0 (by decide)
    simp [startsWith, isdigit_lowerChar hd0, this]
  have hhex : scanHex (d :: ds' ++ suffix) = none := by
    have key : ∀ x : Char, (ds' ++ suffix).head? = some x → ¬ (x = 'x' ∨ x = 'X') := by
      intro x hx
      cases ds' with
      | nil =>
        have := hs x (by simpa using hx)
        simp only [endsNumeral, Bool.and_eq_true, decide_eq_true_eq] at this
        rintro (rfl | rfl) <;> simp at this
      | cons e es =>
        have he : isdigit e = true := hd e (by simp)
        have : x = e := by simpa using hx.symm
        subst this
        rintro (rfl | rfl) <;> revert he <;> decide
    unfold scanHex
    split
    · rename_i x t heq
      have hx : (ds' ++ suffix).head? = some x := by
        have := congrArg List.tail heq
        simp only [List.cons_append, List.tail_cons] at this
        rw [this]
        rfl
      rw [if_neg (key x hx)]
    · rfl
  have hsig : scanSignificand isdigit (d :: ds' ++ suffix) = some (d :: ds', 0, suffix) := by
    unfold scanSignificand
    rw [h1, h2]
    cases suffix with
    | nil => simp
    | cons c cs =>
      have := hs c rfl
      simp only [endsNumeral, Bool.and_eq_true, decide_eq_true_eq] at this
      have hc : c ≠ '.' := by
        rintro rfl
        simp at this
      split
      · rename_i t heq
        exact absurd (List.cons.inj heq).1 hc
      · simp
  have hexp : scanExponent (fun c => decide (c = 'e' ∨ c = 'E')) suffix = 0 := by
    cases suffix with
    | nil => rfl
    | cons c cs =>
      have := hs c rfl
      simp only [endsNumeral, Bool.and_eq_true, decide_eq_true_eq] at this
      have hc : ¬ (c = 'e' ∨ c = 'E') := by
        rintro (rfl | rfl) <;> simp at this
      simp [scanExponent, hc]
  have hdec : scanDecimal (d :: ds' ++ suffix) = some (ofDigits10 (d :: ds') : ℚ) := by
    unfold scanDecimal
    rw [hsig]
    simp only [hexp]
    simp
  unfold scanMagnitude
  rw [hinf, hnan]
  simp only [Bool.false_eq_true, if_false]
  rw [hhex, hdec]

theorem stod_digits (ds suffix : Str) (hne : ds ≠ [])
    (hd : ∀ c ∈ ds, isdigit c = true)
    (hs : ∀ c, suffix.head? = some c → endsNumeral c = true)
    (hr : (ofDigits10 ds : ℚ) < (2 : ℚ) ^ 1024 - (2 : ℚ) ^ 970) :
    stod (ds ++ suffix) = some (Double.fin (ofDigits10 ds)) := by
  obtain ⟨d, ds', rfl⟩ := List.exists_cons_of_ne_nil hne
  have hd0 : isdigit d = true := hd d (List.mem_cons_self _ _)
  have h1 : (d :: ds' ++ suffix).dropWhile isspace = d :: ds' ++ suffix := by
    simp [List.dropWhile_cons, isdigit_not_isspace hd0]
  have h2 : takeSign (d :: ds' ++ suffix) = (false, d :: ds' ++ suffix) :=
    takeSign_of_digit _ hd0
  have h3 : rangeError (ofDigits10 (d :: ds') : ℚ) = false := by
    unfold rangeError
    have hnn : (0 : ℚ) ≤ (ofDigits10 (d :: ds') : ℚ) := Nat.cast_nonneg _
    have hden : ((ofDigits10 (d :: ds') : ℚ) * (2 : ℚ) ^ 1074).den = 1 := by
      have : ((ofDigits10 (d :: ds') : ℚ) * (2 : ℚ) ^ 1074)
          = ((ofDigits10 (d :: ds') * 2 ^ 1074 : Nat) : ℚ) := by push_cast; ring
      rw [this]
      exact Rat.den_natCast _
    simp only [hden, ne_eq, not_true_eq_false, decide_False, Bool.and_false, Bool.or_false,
      decide_eq_false_iff_not, not_le]
    exact hr
  unfold stod
  rw [h1, h2]
  simp only [scanMagnitude_digits (d :: ds') suffix hne hd hs, h3, Bool.false_eq_true, if_false]

theorem ofDigits10_lt_pow (ds : Str) (hd : ∀ c ∈ ds, isdigit c = true) :
    ofDigits10 ds < 10 ^ ds.length := by
  rw [ofDigits10_eq]
  have h := Nat.ofDigits_lt_base_pow_length (b := 10) (l := (ds.map digitVal).reverse)
    (by norm_num) (by
      intro x hx
      rw [List.mem_reverse, List.mem_map] at hx
      obtain ⟨c, hc, rfl⟩ := hx
      have := hd c hc
      simp [isdigit] at this
      unfold digitVal
      omega)
  simpa using h

theorem ofDigits10_in_range (ds : Str) (hd : ∀ c ∈ ds, isdigit c = true)
    (hlen : ds.length ≤ 308) :
    (ofDigits10 ds : ℚ) < (2 : ℚ) ^ 1024 - (2 : ℚ) ^ 970 := by
  have h1 : ofDigits10 ds < 10 ^ 308 :=
    lt_of_lt_of_le (ofDigits10_lt_pow ds hd) (Nat.pow_le_pow_right (by norm_num) hlen)
  have h2 : (10 : ℚ) ^ 308 < (2 : ℚ) ^ 1024 - (2 : ℚ) ^ 970 := by norm_num
  have h3 : (ofDigits10 ds : ℚ) < (10 : ℚ) ^ 308 := by exact_mod_cast h1
  exact lt_trans h3 h2

/-- C5: for a device path that contains `nvme`, when the vendor report decodes to
a map in which `Percentage Used` has the text `text`: if `std::stod` converts
`text` (a number, possibly followed by other characters) to `v`, then
`getEstimatedLifeRemaining` returns 100 - v; in particular, if `text` is a run
of at most 308 decimal digits spelling n, followed by nothing or by a suffix
whose first character cannot continue a numeral (such as `%`), it returns
100 - n. -/
theorem lifeRemaining_nvme (executeCommand : Str → Str) (indet : Int) (device_path : Str)
    (metrics : StdMap Str) (text : Str)
    (hpath : "nvme".toList <:+: device_path)
    (hreport : parseNVMeOutput (executeCommand (smartLogCommand device_path)) = some metrics)
    (hkey : mapFind metrics "Percentage Used".toList = some text) :
    (∀ v : Double, stod text = some v →
        getEstimatedLifeRemaining executeCommand indet device_path = Double.sub (Double.fin 100) v)
      ∧ ∀ ds suffix : Str, text = ds ++ suffix → ds ≠ [] → (∀ c ∈ ds, isdigit c = true) →
          ds.length ≤ 308 → (∀ c, suffix.head? = some c → endsNumeral c = true) →
          getEstimatedLifeRemaining executeCommand indet device_path
            = Double.fin (100 - (ofDigits10 ds : ℚ)) := by
  have key : ∀ v : Double, stod text = some v →
      getEstimatedLifeRemaining executeCommand indet device_path = Double.sub (Double.fin 100) v := by
    intro v hnum
    rw [estimate_on_nvme_path executeCommand indet device_path hpath,
      getNVMeMetrics_of_nvme executeCommand device_path metrics hpath hreport]
    exact lifeFromNVMe_numeric metrics text v hkey hnum
  refine ⟨key, ?_⟩
  intro ds suffix htext hne hd hlen hs
  rw [key (Double.fin (ofDigits10 ds))
    (htext ▸ stod_digits ds suffix hne hd hs (ofDigits10_in_range ds hd hlen))]
  rfl

/-- C5, witness: `Percentage Used` of `37%` on `/dev/nvme0n1` gives 63, both
through the conversion of the text and through its digits. -/
theorem lifeRemaining_nvme_witness :
    getEstimatedLifeRemaining report37 0 "/dev/nvme0n1".toList = Double.fin 63
      ∧ getEstimatedLifeRemaining report37 0 "/dev/nvme0n1".toList
          = Double.fin (100 - (ofDigits10 "37".toList : ℚ)) :=
  ⟨((lifeRemaining_nvme report37 0 "/dev/nvme0n1".toList
      [("Percentage Used".toList, "37%".toList)] "37%".toList
      (by decide) (by decide) (by decide)).1 (Double.fin 37) (by decide!)).trans (by decide!),
   (lifeRemaining_nvme report37 0 "/dev/nvme0n1".toList
      [("Percentage Used".toList, "37%".toList)] "37%".toList
      (by decide) (by decide) (by decide)).2 "37".toList "%".toList rfl (by decide) (by decide)
      (by decide) (by decide)⟩

/-- C6: for a device path that does not contain `nvme` and the list `L` of
attributes decoded from the health report, `getEstimatedLifeRemaining` returns
the `current_value` of the first attribute of `L` whose name contains
`Media_Wearout_Indicator` or `Wear_Leveling_Count`, and -1 when `L` has no
such attribute. -/
theorem lifeRemaining_sata (executeCommand : Str → Str) (indet : Int) (device_path : Str)
    (L : List SMARTData)
    (hpath : ¬ "nvme".toList <:+: device_path)
    (hL : getSMARTData executeCommand indet device_path = L) :
    getEstimatedLifeRemaining executeCommand indet device_path
      = match L.find? (fun d => decide (hasWearMarker d)) with
        | some d => Double.ofInt d.current_value
        | none => Double.fin (-1) := by
  rw [estimate_on_sata_path executeCommand indet device_path hpath, hL, lifeFromSMART_eq]

/-- C6, witness: a report with two wear attributes gives the value of the first
one, 95; the report of C1, which has none, gives -1. -/
theorem lifeRemaining_sata_witness :
    getEstimatedLifeRemaining reportWear 0 "/dev/sda".toList = Double.fin 95
      ∧ getEstimatedLifeRemaining (fun _ => smartReport) 0 "/dev/sda".toList = Double.fin (-1) :=
  ⟨(lifeRemaining_sata reportWear 0 "/dev/sda".toList _ (by decide) rfl).trans (by decide!),
   (lifeRemaining_sata (fun _ => smartReport) 0 "/dev/sda".toList _ (by decide) rfl).trans
     (by decide!)⟩

/-- C7, counterexample: for an NVMe device whose report gives `Percentage Used`
as `101%`, the key is present and numeric, yet the result 100 - 101 is the
sentinel -1. -/
theorem lifeRemaining_sentinel_counterexample :
    mapFind (getNVMeMetrics report101 "/dev/nvme0n1".toList) "Percentage Used".toList
        = some "101%".toList
      ∧ stod "101%".toList = some (Double.fin 101)
      ∧ getEstimatedLifeRemaining report101 0 "/dev/nvme0n1".toList = Double.fin (-1) := by
  decide!

/-- C7, amended: `getEstimatedLifeRemaining` returns -1 when no wear value is
available, and otherwise only when the wear value itself maps to -1.  On the
NVMe branch the result is -1 exactly when `Percentage Used` is missing, is not
numeric, or is 101; on the SATA branch exactly when no attribute name contains
a wear marker or the first such attribute has `current_value` -1. -/
theorem lifeRemaining_unknown_iff (executeCommand : Str → Str) (indet : Int) (device_path : Str) :
    ("nvme".toList <:+: device_path →
        (getEstimatedLifeRemaining executeCommand indet device_path = Double.fin (-1) ↔
          match mapFind (getNVMeMetrics executeCommand device_path) "Percentage Used".toList with
          | none => True
          | some text => stod text = none ∨ stod text = some (Double.fin 101)))
      ∧ (¬ "nvme".toList <:+: device_path →
        (getEstimatedLifeRemaining executeCommand indet device_path = Double.fin (-1) ↔
          match (getSMARTData executeCommand indet device_path).find? (fun d => decide (hasWearMarker d)) with
          | none => True
          | some d => d.current_value = -1)) := by
  constructor
  · intro hpath
    rw [estimate_on_nvme_path executeCommand indet device_path hpath]
    cases hf : mapFind (getNVMeMetrics executeCommand device_path) "Percentage Used".toList with
    | none => simp [lifeFromNVMe_absent _ hf]
    | some text =>
      cases hs : stod text with
      | none => simp [lifeFromNVMe_not_numeric _ text hf hs, hs]
      | some v => simp [lifeFromNVMe_numeric _ text v hf hs, hs, sub_hundred_eq_unknown]
  · intro hpath
    rw [estimate_on_sata_path executeCommand indet device_path hpath, lifeFromSMART_eq]
    cases List.find? (fun d => decide (hasWearMarker d)) (getSMARTData executeCommand indet device_path) with
    | none => simp
    | some d => simp [ofInt_eq_unknown]

/-- C7, witness: `Percentage Used` of `37%` does not give -1; a health report
without a wear attribute does. -/
theorem lifeRemaining_unknown_iff_witness :
    getEstimatedLifeRemaining report37 0 "/dev/nvme0n1".toList ≠ Double.fin (-1)
      ∧ getEstimatedLifeRemaining (fun _ => smartReport) 0 "/dev/sda".toList = Double.fin (-1) :=
  ⟨fun h => absurd
      (((lifeRemaining_unknown_iff report37 0 "/dev/nvme0n1".toList).1 (by decide)).mp h)
      (show ¬ (stod "37%".toList = none ∨ stod "37%".toList = some (Double.fin 101)) by decide!),
   ((lifeRemaining_unknown_iff (fun _ => smartReport) 0 "/dev/sda".toList).2 (by decide)).mpr
      (show True from trivial)⟩

/-- C8, counterexample: for an NVMe device whose report gives `Percentage Used`
as `150%` the result is -50, which is neither -1 nor between 0 and 100. -/
theorem lifeRemaining_range_counterexample :
    getEstimatedLifeRemaining report150 0 "/dev/nvme0n1".toList = Double.fin (-50)
      ∧ Double.fin (-50) ≠ Double.fin (-1) ∧ ¬ inPercentRange (Double.fin (-50)) := by
  refine ⟨by decide!, by decide!, ?_⟩
  simp only [inPercentRange]
  norm_num

/-- C8, amended: the result of `getEstimatedLifeRemaining` is -1 or lies between
0 and 100, unless the reading itself is outside that range, which is passed on
unclamped: a numeric `Percentage Used` value v that is not between 0 and 100
gives 100 - v, and a first wear attribute whose `current_value` is not between
0 and 100 gives that value. -/
theorem lifeRemaining_range (executeCommand : Str → Str) (indet : Int) (device_path : Str) :
    (getEstimatedLifeRemaining executeCommand indet device_path = Double.fin (-1)
        ∨ inPercentRange (getEstimatedLifeRemaining executeCommand indet device_path))
      ∨ ("nvme".toList <:+: device_path ∧ ∃ text v,
          mapFind (getNVMeMetrics executeCommand device_path) "Percentage Used".toList = some text
            ∧ stod text = some v ∧ ¬ inPercentRange v
            ∧ getEstimatedLifeRemaining executeCommand indet device_path = Double.sub (Double.fin 100) v)
      ∨ (¬ "nvme".toList <:+: device_path ∧ ∃ d,
          (getSMARTData executeCommand indet device_path).find? (fun d => decide (hasWearMarker d)) = some d
            ∧ ¬ (0 ≤ d.current_value ∧ d.current_value ≤ 100)
            ∧ getEstimatedLifeRemaining executeCommand indet device_path = Double.ofInt d.current_value) := by
  by_cases hpath : "nvme".toList <:+: device_path
  · rw [estimate_on_nvme_path executeCommand indet device_path hpath]
    cases hf : mapFind (getNVMeMetrics executeCommand device_path) "Percentage Used".toList with
    | none => exact Or.inl (Or.inl (lifeFromNVMe_absent _ hf))
    | some text =>
      cases hs : stod text with
      | none => exact Or.inl (Or.inl (lifeFromNVMe_not_numeric _ text hf hs))
      | some v =>
        rw [lifeFromNVMe_numeric _ text v hf hs]
        by_cases hv : inPercentRange v
        · exact Or.inl (Or.inr ((sub_hundred_inRange v).mpr hv))
        · exact Or.inr (Or.inl ⟨hpath, text, v, rfl, hs, hv, rfl⟩)
  · rw [estimate_on_sata_path executeCommand indet device_path hpath, lifeFromSMART_eq]
    cases hf : List.find? (fun d => decide (hasWearMarker d))
        (getSMARTData executeCommand indet device_path) with
    | none => exact Or.inl (Or.inl rfl)
    | some d =>
      by_cases hv : 0 ≤ d.current_value ∧ d.current_value ≤ 100
      · exact Or.inl (Or.inr ((ofInt_inRange _).mpr hv))
      · exact Or.inr (Or.inr ⟨hpath, d, rfl, hv, rfl⟩)

/-! ## Device discovery -/

theorem map_path_filterMap {α : Type} (row : α → Option DiskInfo) (keep : α → Bool)
    (path : α → Str)
    (h : ∀ a, (row a).map DiskInfo.device_path = if keep a then some (path a) else none)
    (l : List α) :
    (l.filterMap row).map DiskInfo.device_path = (l.filter keep).map path := by
  induction l with
  | nil => rfl
  | cons a l ih =>
    have ha := h a
    cases hr : row a with
    | none =>
      rw [hr] at ha
      have hk : keep a = false := by
        cases hk : keep a
        · rfl
        · rw [hk] at ha; simp at ha
      rw [List.filterMap_cons_none hr, List.filter_cons_of_neg (by simp [hk])]
      exact ih
    | some d =>
      rw [hr] at ha
      have hk : keep a = true := by
        cases hk : keep a
        · rw [hk] at ha; simp at ha
        · rfl
      rw [hk] at ha
      simp only [Option.map_some', if_true, Option.some.injEq] at ha
      rw [List.filterMap_cons_some hr, List.filter_cons_of_pos hk, List.map_cons, List.map_cons,
        ih, ha]

theorem discoverSSDsRow_path (executeCommand : Str → Str) (line : Str) :
    (discoverSSDsRow executeCommand line).map DiskInfo.device_path
      = if passesRotational executeCommand line then some ("/dev/".toList ++ firstWord line) else none := by
  unfold discoverSSDsRow passesRotational firstWord
  dsimp only
  split_ifs <;> rfl

theorem discoverNVMeRow_path (line : Str) :
    (discoverNVMeRow line).map DiskInfo.device_path
      = if !(firstWord line).isEmpty then some (firstWord line) else none := by
  unfold discoverNVMeRow
  by_cases hl : line.isEmpty = true
  · have : line = [] := List.isEmpty_iff.mp hl
    subst this
    rfl
  · rw [if_neg hl]
    show Option.map DiskInfo.device_path
        (if (!(firstWord line).isEmpty) = true then _ else none) = _
    cases hw : (!(firstWord line).isEmpty)
    · rfl
    · rfl

theorem listedDrive_path (line : Str) :
    (listedDrive line).map DiskInfo.device_path
      = if !line.isEmpty then some ("/dev/".toList ++ line) else none := by
  unfold listedDrive
  by_cases hl : line.isEmpty = true
  · simp [hl]
  · simp [hl]

theorem blockDeviceRow_path (line : Str) :
    (blockDeviceRow line).map DiskInfo.device_path
      = if !(line.isEmpty || contains line "loop".toList) then
          some ("/dev/".toList ++ firstWord line)
        else none := by
  unfold blockDeviceRow
  cases hX : (line.isEmpty || contains line "loop".toList)
  · rfl
  · rfl

theorem potential_paths_nodup : potential_paths.Nodup := by
  decide

theorem detectDrives_paths (executeCommand : Str → Str) (fileGood : Str → Bool) :
    (detectDrives executeCommand fileGood).map DiskInfo.device_path
      = if potential_paths.filter fileGood = [] then namePaths executeCommand
        else potential_paths.filter fileGood := by
  unfold detectDrives
  dsimp only
  by_cases h : potential_paths.filter fileGood = []
  · rw [h]
    simp only [List.map_nil, List.isEmpty_nil, if_true]
    exact map_path_filterMap listedDrive (fun line => !line.isEmpty)
      (fun line => "/dev/".toList ++ line) listedDrive_path _
  · have h2 : ((potential_paths.filter fileGood).map probedDrive).isEmpty = false := by
      cases hf : potential_paths.filter fileGood with
      | nil => exact absurd hf h
      | cons a l => rfl
    rw [h2]
    simp only [Bool.false_eq_true, if_false, h, List.map_map]
    exact List.map_id'' (fun _ => rfl) _

theorem discoverBlockDevices_paths (executeCommand : Str → Str) :
    (discoverBlockDevices executeCommand).map DiskInfo.device_path = blockPaths executeCommand :=
  map_path_filterMap blockDeviceRow _ _ blockDeviceRow_path _

theorem discoverSSDs_paths (executeCommand : Str → Str) (fileGood : Str → Bool) :
    (discoverSSDs executeCommand fileGood).map DiskInfo.device_path
      = if listedPaths executeCommand ++ nvmePaths executeCommand = [] then
          (detectDrives executeCommand fileGood).map DiskInfo.device_path
        else listedPaths executeCommand ++ nvmePaths executeCommand := by
  have h1 := map_path_filterMap (discoverSSDsRow executeCommand) (passesRotational executeCommand)
    (fun line => "/dev/".toList ++ firstWord line) (discoverSSDsRow_path executeCommand)
    (getlines (executeCommand
      "lsblk -d -o NAME,MODEL,SIZE,SERIAL -n | grep -v -e '^loop' -e '^sr'".toList))
  have h2 := map_path_filterMap discoverNVMeRow (fun line => !(firstWord line).isEmpty)
    firstWord discoverNVMeRow_path ((getlines (executeCommand "nvme list 2>/dev/null".toList)).drop 1)
  have h3 : ∀ l : List Str, (l.filter (fun line => !(firstWord line).isEmpty)).map firstWord
      = (l.map firstWord).filter (fun w => !w.isEmpty) := by
    intro l
    rw [List.filter_map]
    rfl
  rw [h3] at h2
  unfold discoverSSDs
  dsimp only
  unfold listedPaths nvmePaths
  rw [← h1, ← h2, ← List.map_append]
  cases hd : (List.filterMap (discoverSSDsRow executeCommand) (getlines (executeCommand
      "lsblk -d -o NAME,MODEL,SIZE,SERIAL -n | grep -v -e '^loop' -e '^sr'".toList))
      ++ List.filterMap discoverNVMeRow
        (List.drop 1 (getlines (executeCommand "nvme list 2>/dev/null".toList)))) with
  | nil => simp
  | cons a l => simp

/-- C10, counterexample: on a host whose NVMe drive is listed by both `lsblk` and
`nvme list`, `discoverSSDs` returns the path `/dev/nvme0n1` twice; a name
listing that repeats a line makes `detectDrives` (when no conventional path
exists) and `discoverBlockDevices` return `/dev/sda` twice. -/
theorem discovery_duplicate_counterexample :
    (discoverSSDs duplicateListing (fun _ => false)).map DiskInfo.device_path
        = ["/dev/nvme0n1".toList, "/dev/nvme0n1".toList]
      ∧ (detectDrives duplicateListing (fun _ => false)).map DiskInfo.device_path
        = ["/dev/sda".toList, "/dev/sda".toList]
      ∧ (discoverBlockDevices duplicateListing).map DiskInfo.device_path
        = ["/dev/sda".toList, "/dev/sda".toList]
      ∧ ¬ ((discoverSSDs duplicateListing (fun _ => false)).map DiskInfo.device_path).Nodup := by
  decide

/-- C10, amended: `detectDrives` returns pairwise distinct paths whenever one of
the six conventional paths exists.  Otherwise nothing is deduplicated and the
paths are the listed names in order: for `detectDrives` without an existing
conventional path, `/dev/` and each non-empty line of the name listing; for
`discoverBlockDevices`, `/dev/` and the name of each kept row; for
`discoverSSDs`, `/dev/` and the name of each kept row of the structured listing
followed by the device names of the NVMe listing, or the result of
`detectDrives` when there are none. -/
theorem discovery_paths (executeCommand : Str → Str) (fileGood : Str → Bool) :
    ((∃ p ∈ potential_paths, fileGood p = true) →
        ((detectDrives executeCommand fileGood).map DiskInfo.device_path).Nodup)
      ∧ ((∀ p ∈ potential_paths, fileGood p = false) →
        (detectDrives executeCommand fileGood).map DiskInfo.device_path = namePaths executeCommand)
      ∧ (discoverBlockDevices executeCommand).map DiskInfo.device_path = blockPaths executeCommand
      ∧ (discoverSSDs executeCommand fileGood).map DiskInfo.device_path
        = if listedPaths executeCommand ++ nvmePaths executeCommand = [] then
            (detectDrives executeCommand fileGood).map DiskInfo.device_path
          else listedPaths executeCommand ++ nvmePaths executeCommand := by
  refine ⟨?_, ?_, discoverBlockDevices_paths executeCommand, discoverSSDs_paths executeCommand fileGood⟩
  · rintro ⟨p, hp, hg⟩
    have hne : potential_paths.filter fileGood ≠ [] :=
      List.ne_nil_of_mem (List.mem_filter.mpr ⟨hp, hg⟩)
    rw [detectDrives_paths, if_neg hne]
    exact potential_paths_nodup.filter _
  · intro h
    have he : potential_paths.filter fileGood = [] := by
      rw [List.filter_eq_nil_iff]
      intro p hp
      simp [h p hp]
    rw [detectDrives_paths, if_pos he]

/-- C10, witness: when only `/dev/sda` exists, `detectDrives` returns distinct
paths; when no conventional path exists, it returns the lines of the name
listing, here `/dev/sda` twice. -/
theorem discovery_paths_witness :
    ((detectDrives duplicateListing
        (fun p => decide (p = "/dev/sda".toList))).map DiskInfo.device_path).Nodup
      ∧ (detectDrives duplicateListing (fun _ => false)).map DiskInfo.device_path
        = namePaths duplicateListing :=
  ⟨(discovery_paths duplicateListing (fun p => decide (p = "/dev/sda".toList))).1
      ⟨"/dev/sda".toList, by decide, by decide⟩,
   (discovery_paths duplicateListing (fun _ => false)).2.1 (fun _ _ => rfl)⟩

/-! ## Ascending keys -/

theorem strLt_total : ∀ (a b : Str), strLt a b = false → a ≠ b → strLt b a = true
  | [], [], _, hne => absurd rfl hne
  | [], _ :: _, h, _ => by simp [strLt] at h
  | _ :: _, [], _, _ => by simp [strLt]
  | x :: xs, y :: ys, h, hne => by
    simp only [strLt] at h ⊢
    by_cases h1 : x.toNat < y.toNat
    · simp [h1] at h
    · by_cases h2 : x.toNat = y.toNat
      · have hxy : x = y := by
          rw [← Char.ofNat_toNat x, h2, Char.ofNat_toNat]
        subst hxy
        simp only [lt_self_iff_false, if_false, if_true] at h ⊢
        exact strLt_total xs ys h (fun e => hne (by rw [e]))
      · have h3 : y.toNat < x.toNat := by omega
        simp [h3]

theorem mapAlter_key_mem {V : Type} (dflt : V) (f : V → V) (m : StdMap V) (key : Str) :
    ∀ e ∈ mapAlter dflt f m key, e.1 = key ∨ ∃ e' ∈ m, e'.1 = e.1 := by
  induction m with
  | nil =>
    intro e he
    simp only [mapAlter, List.mem_singleton] at he
    exact Or.inl (by rw [he])
  | cons a rest ih =>
    obtain ⟨k, v⟩ := a
    intro e he
    unfold mapAlter at he
    split_ifs at he with h1 h2
    · rcases List.mem_cons.mp he with rfl | he
      · exact Or.inl rfl
      · exact Or.inr ⟨e, he, rfl⟩
    · rcases List.mem_cons.mp he with rfl | he
      · exact Or.inl h2.symm
      · exact Or.inr ⟨e, List.mem_cons_of_mem _ he, rfl⟩
    · rcases List.mem_cons.mp he with rfl | he
      · exact Or.inr ⟨(k, v), List.mem_cons_self _ _, rfl⟩
      · rcases ih e he with h | ⟨e', he', h⟩
        · exact Or.inl h
        · exact Or.inr ⟨e', List.mem_cons_of_mem _ he', h⟩

theorem mapSorted_mapAlter {V : Type} (dflt : V) (f : V → V) (m : StdMap V) (key : Str)
    (hs : mapSorted m) : mapSorted (mapAlter dflt f m key) := by
  unfold mapSorted at hs ⊢
  induction m with
  | nil => simp [mapAlter]
  | cons a rest ih =>
    obtain ⟨k, v⟩ := a
    rw [List.pairwise_cons] at hs
    obtain ⟨hhead, htail⟩ := hs
    unfold mapAlter
    split_ifs with h1 h2
    · rw [List.pairwise_cons]
      refine ⟨?_, List.pairwise_cons.mpr ⟨hhead, htail⟩⟩
      intro e he
      rcases List.mem_cons.mp he with rfl | he
      · exact h1
      · exact strLt_trans _ _ _ h1 (hhead e he)
    · rw [List.pairwise_cons]
      exact ⟨hhead, htail⟩
    · rw [List.pairwise_cons]
      refine ⟨?_, ih htail⟩
      intro e he
      rcases mapAlter_key_mem dflt f rest key e he with h | ⟨e', he', h⟩
      · rw [h]
        exact strLt_total key k (by simpa using h1) h2
      · rw [← h]
        exact hhead e' he'

theorem mapFind_none_of_lt {V : Type} (m : StdMap V) (key : Str)
    (h : ∀ e ∈ m, strLt key e.1 = true) : mapFind m key = none := by
  cases m with
  | nil => rfl
  | cons a rest =>
    obtain ⟨k, v⟩ := a
    have := h (k, v) (List.mem_cons_self _ _)
    simp only [mapFind]
    rw [if_pos this]

theorem mapFind_eq_some_iff {V : Type} (m : StdMap V) (hs : mapSorted m) (key : Str) (v : V) :
    mapFind m key = some v ↔ (key, v) ∈ m := by
  constructor
  · exact mapFind_mem m key v
  · intro hmem
    unfold mapSorted at hs
    induction m with
    | nil => cases hmem
    | cons a rest ih =>
      obtain ⟨k, w⟩ := a
      rw [List.pairwise_cons] at hs
      obtain ⟨hhead, htail⟩ := hs
      rcases List.mem_cons.mp hmem with heq | hmem
      · cases heq
        simp [mapFind, strLt_irrefl]
      · have hlt : strLt k key = true := hhead (key, v) hmem
        have h1 : strLt key k = false := by
          cases h : strLt key k
          · rfl
          · have := strLt_trans _ _ _ h hlt
            rw [strLt_irrefl] at this
            cases this
        have h2 : key ≠ k := by
          rintro rfl
          rw [strLt_irrefl] at hlt
          cases hlt
        simp only [mapFind, h1, Bool.false_eq_true, if_false, h2]
        exact ih htail hmem

/-! ## Flushing twice -/

theorem historyRows_eq_map (fmt : Str → PerformanceMetrics → Str) (hist : History) :
    historyRows fmt hist = (historyPairs hist).map (fun p => fmt p.1 p.2) := by
  unfold historyRows historyPairs
  induction hist with
  | nil => rfl
  | cons e rest ih =>
    simp only [List.flatMap_cons, List.map_append, List.map_map]
    rw [ih]
    rfl

theorem historyPairs_filter_of_absent (hist : History) (d : Str)
    (h : ∀ e ∈ hist, e.1 ≠ d) :
    (historyPairs hist).filter (fun p => decide (p.1 = d)) = [] := by
  rw [List.filter_eq_nil_iff]
  intro p hp
  unfold historyPairs at hp
  rw [List.mem_flatMap] at hp
  obtain ⟨e, he, hpe⟩ := hp
  rw [List.mem_map] at hpe
  obtain ⟨m, -, rfl⟩ := hpe
  simpa using h e he

theorem historyPairs_filter_length (hist : History) (hs : mapSorted hist) (d : Str) :
    ((historyPairs hist).filter (fun p => decide (p.1 = d))).length
      = (historyOf hist d).length := by
  unfold mapSorted at hs
  induction hist with
  | nil => rfl
  | cons a rest ih =>
    obtain ⟨k, v⟩ := a
    rw [List.pairwise_cons] at hs
    obtain ⟨hhead, htail⟩ := hs
    have hcons : historyPairs ((k, v) :: rest) = v.map (Prod.mk k) ++ historyPairs rest := by
      simp [historyPairs]
    rw [hcons, List.filter_append, List.length_append]
    by_cases hk : k = d
    · subst hk
      have habs : ∀ e ∈ rest, e.1 ≠ k := by
        intro e he heq
        have := hhead e he
        rw [heq, strLt_irrefl] at this
        cases this
      rw [historyPairs_filter_of_absent rest k habs]
      have h1 : (v.map (Prod.mk k)).filter (fun p => decide (p.1 = k)) = v.map (Prod.mk k) := by
        rw [List.filter_eq_self]
        intro p hp
        rw [List.mem_map] at hp
        obtain ⟨m, -, rfl⟩ := hp
        simp
      rw [h1]
      simp [historyOf, mapFind, strLt_irrefl]
    · have h1 : (v.map (Prod.mk k)).filter (fun p => decide (p.1 = d)) = [] := by
        rw [List.filter_eq_nil_iff]
        intro p hp
        rw [List.mem_map] at hp
        obtain ⟨m, -, rfl⟩ := hp
        simpa using hk
      rw [h1, List.length_nil, Nat.zero_add, ih htail]
      by_cases hlt : strLt d k = true
      · have hnone : mapFind rest d = none :=
          mapFind_none_of_lt rest d (fun e he => strLt_trans _ _ _ hlt (hhead e he))
        simp [historyOf, mapFind, hlt, hnone]
      · have hdk : d ≠ k := fun e => hk e.symm
        simp [historyOf, mapFind, hlt, hdk]

theorem mapSorted_recordStep (hist : History) (d : Str) (m : PerformanceMetrics)
    (hs : mapSorted hist) : mapSorted (recordStep hist d m) := by
  rw [recordStep_eq_mapAlter]
  exact mapSorted_mapAlter _ _ hist d hs

theorem mapSorted_recordAll (events : List (Str × PerformanceMetrics)) (hist : History)
    (hs : mapSorted hist) : mapSorted (recordAll hist events) := by
  unfold recordAll
  induction events generalizing hist with
  | nil => exact hs
  | cons e es ih =>
    rw [List.foldl_cons]
    exact ih _ (mapSorted_recordStep hist e.1 e.2 hs)

theorem saveMetricsHistory_twice (fmt : Str → PerformanceMetrics → Str) (hist : History)
    (file : List Str) :
    saveMetricsHistory fmt true hist (saveMetricsHistory fmt true hist file)
      = (if file.isEmpty then [csvHeader] else file)
          ++ (historyRows fmt hist ++ historyRows fmt hist) := by
  have hne : ((if file.isEmpty then [csvHeader] else file) ++ historyRows fmt hist).isEmpty
      = false := by
    cases file with
    | nil => rfl
    | cons l ls => rfl
  simp only [saveMetricsHistory, Bool.not_true, Bool.false_eq_true, if_false, hne,
    List.append_assoc]

/-- C11: flushing twice with no record step in between, the file opening both times,
appends every held (device, snapshot) row twice: the file becomes the header (when it
was empty) or its former lines, followed by the rows of the store and by the same rows
again.  For each device the number of pairs written by the two flushes is twice the
length of its sequence in the store.  From an empty file the first flush leaves the
header and the rows, the second one the header and the rows twice.  The store is a
`std::map`, whose keys ascend (`mapSorted`), as in every store built by record steps. -/
theorem flush_twice_doubles (fmt : Str → PerformanceMetrics → Str) (hist : History)
    (file : List Str) (hs : mapSorted hist) :
    saveMetricsHistory fmt true hist (saveMetricsHistory fmt true hist file)
        = (if file.isEmpty then [csvHeader] else file)
            ++ (historyPairs hist ++ historyPairs hist).map (fun p => fmt p.1 p.2)
      ∧ (∀ d : Str,
          ((historyPairs hist ++ historyPairs hist).filter (fun p => decide (p.1 = d))).length
            = 2 * (historyOf hist d).length)
      ∧ saveMetricsHistory fmt true hist []
          = csvHeader :: (historyPairs hist).map (fun p => fmt p.1 p.2)
      ∧ saveMetricsHistory fmt true hist (saveMetricsHistory fmt true hist [])
          = csvHeader :: ((historyPairs hist).map (fun p => fmt p.1 p.2)
              ++ (historyPairs hist).map (fun p => fmt p.1 p.2)) := by
  refine ⟨?_, ?_, ?_, ?_⟩
  · rw [saveMetricsHistory_twice, historyRows_eq_map, List.map_append]
  · intro d
    rw [List.filter_append, List.length_append, historyPairs_filter_length hist hs d]
    omega
  · simp [saveMetricsHistory, historyRows_eq_map]
  · rw [saveMetricsHistory_twice, historyRows_eq_map]
    rfl

/-- C11, an instance: three record steps for two devices from the empty store, then two
flushes into an empty file; the file holds the header and each of the three rows
twice, the devices in ascending order. -/
theorem flush_twice_doubles_witness :
    saveMetricsHistory sampleRow true
        (recordAll [] [("/dev/sdb".toList, sampleAt 1), ("/dev/sda".toList, sampleAt 2),
          ("/dev/sdb".toList, sampleAt 3)])
        (saveMetricsHistory sampleRow true
          (recordAll [] [("/dev/sdb".toList, sampleAt 1), ("/dev/sda".toList, sampleAt 2),
            ("/dev/sdb".toList, sampleAt 3)]) [])
      = [csvHeader, "/dev/sda,2".toList, "/dev/sdb,1".toList, "/dev/sdb,3".toList,
          "/dev/sda,2".toList, "/dev/sdb,1".toList, "/dev/sdb,3".toList] :=
  ((flush_twice_doubles sampleRow
    (recordAll [] [("/dev/sdb".toList, sampleAt 1), ("/dev/sda".toList, sampleAt 2),
      ("/dev/sdb".toList, sampleAt 3)]) []
    (mapSorted_recordAll _ [] List.Pairwise.nil)).2.2.2).trans (by decide)

/-! ## Evaluations of the decoders on degraded input -/

theorem scanPerformanceFields_bad_third :
    scanPerformanceFields "sda 1.5 2.5 x 4 5 6 7 8 9 10 11 12 13".toList
      = { read_iops := some (Double.fin (3 / 2)), write_iops := some (Double.fin (5 / 2)),
          read_throughput_mb := some (Double.fin 0), write_throughput_mb := none,
          read_latency_ms := none, write_latency_ms := none, queue_depth := none } := by
  decide!

theorem scanPerformanceFields_short :
    scanPerformanceFields "sda 1 2".toList
      = { read_iops := some (Double.fin 1), write_iops := some (Double.fin 2),
          read_throughput_mb := none, write_throughput_mb := none,
          read_latency_ms := none, write_latency_ms := none, queue_depth := none } := by
  decide!

/-- C12: values read before a failed extraction stay in the snapshot.  On the line
`sda 1.5 2.5 x 4 5 6 7 8 9 10 11 12 13` the word `x` stands where the third value is
read: `read_iops` is 1.5, `write_iops` is 2.5, `read_throughput_mb` is 0 and the four
later fields keep the content they had before the call.  On the line `sda 1 2` the
first two fields are 1 and 2 and the five others keep their former content.  The
fields are not reset to 0. -/
theorem getPerformanceMetrics_keeps_earlier_reads (now : Int) (indet : PerformanceMetrics) :
    getPerformanceMetrics reportBadThird now indet "/dev/sda".toList
        = { indet with read_iops := Double.fin (3 / 2), write_iops := Double.fin (5 / 2),
                       read_throughput_mb := Double.fin 0, timestamp := now }
      ∧ getPerformanceMetrics reportShort now indet "/dev/sda".toList
        = { indet with read_iops := Double.fin 1, write_iops := Double.fin 2,
                       timestamp := now } := by
  have h1 : getPerformanceMetrics reportBadThird now indet "/dev/sda".toList
      = readPerformanceFields "sda 1.5 2.5 x 4 5 6 7 8 9 10 11 12 13".toList
          { indet with timestamp := now } := rfl
  have h2 : getPerformanceMetrics reportShort now indet "/dev/sda".toList
      = readPerformanceFields "sda 1 2".toList { indet with timestamp := now } := rfl
  rw [h1, h2, readPerformanceFields, readPerformanceFields, scanPerformanceFields_bad_third,
    scanPerformanceFields_short]
  exact ⟨rfl, rfl⟩

/-- C16: the rows of `smartReportDegraded` are decoded into records whose raw value is
the empty text, not `N/A`.  The row `5 Reallocated_Sector_Ct 100`, where `worst` is
absent, gives worst 0, threshold 0 and an empty raw value; the row
`9 Power_On_Hours 99 98 x 1234`, where `threshold` is not an integer, keeps worst 98
and gives threshold 0 and an empty raw value. -/
theorem parseSMARTOutput_degraded_rows (indet : Int) :
    parseSMARTOutput indet smartReportDegraded
      = [{ id := 5, attribute_name := "Reallocated_Sector_Ct".toList, current_value := 100,
           worst_value := 0, threshold := 0, raw_value := [] },
         { id := 9, attribute_name := "Power_On_Hours".toList, current_value := 99,
           worst_value := 98, threshold := 0, raw_value := [] }] := by
  rfl

/-- C19: the listing row `sda Samsung_SSD_860 500107862016 S3Z9NB0K` with rotational
flag `0` gives a record with path `/dev/sda`, an empty model, and `size_bytes` 860,
the digits of the model column: the read of the model ends at the separator that
follows the name, so the size is read from the second column. -/
theorem discoverSSDs_row_fields_shifted :
    discoverSSDs listingOneRow (fun _ => false)
      = [{ device_path := "/dev/sda".toList, model := [], serial := [], size_bytes := 860,
           interface_type := "Unknown".toList }] := by
  decide

/-! ## Fallback order and the lines of a health report -/

theorem isEmpty_eq_false_of_ne {α : Type} (l : List α) (h : l ≠ []) : l.isEmpty = false := by
  cases l with
  | nil => exact absurd rfl h
  | cons a l => rfl

/-- C13: `discoverSSDs` returns the records of the structured listing followed by
those of the NVMe listing when there is at least one, and the result of
`detectDrives` when there is none; `detectDrives` returns one record per
existing conventional path, in the order of `potential_paths`, when at least
one exists, and the records of the minimal name listing when none exists. -/
theorem discovery_fallback_order (executeCommand : Str → Str) (fileGood : Str → Bool) :
    (structuredRecords executeCommand ++ nvmeRecords executeCommand ≠ [] →
        discoverSSDs executeCommand fileGood
          = structuredRecords executeCommand ++ nvmeRecords executeCommand)
      ∧ (structuredRecords executeCommand ++ nvmeRecords executeCommand = [] →
        discoverSSDs executeCommand fileGood = detectDrives executeCommand fileGood)
      ∧ ((∃ p ∈ potential_paths, fileGood p = true) →
        detectDrives executeCommand fileGood = (potential_paths.filter fileGood).map probedDrive
          ∧ (detectDrives executeCommand fileGood).map DiskInfo.device_path
              = potential_paths.filter fileGood)
      ∧ ((∀ p ∈ potential_paths, fileGood p = false) →
        detectDrives executeCommand fileGood = nameListingRecords executeCommand)
      ∧ potential_paths
          = ["/dev/nvme0n1".toList, "/dev/nvme1n1".toList, "/dev/sda".toList,
             "/dev/sdb".toList, "/dev/sdc".toList, "/dev/vda".toList] := by
  refine ⟨?_, ?_, ?_, ?_, rfl⟩
  · intro h
    unfold discoverSSDs
    dsimp only
    unfold structuredRecords nvmeRecords at h
    rw [isEmpty_eq_false_of_ne _ h]
    rfl
  · intro h
    unfold discoverSSDs
    dsimp only
    unfold structuredRecords nvmeRecords at h
    rw [h]
    rfl
  · rintro ⟨p, hp, hg⟩
    have hne : potential_paths.filter fileGood ≠ [] :=
      List.ne_nil_of_mem (List.mem_filter.mpr ⟨hp, hg⟩)
    have hne2 : (potential_paths.filter fileGood).map probedDrive ≠ [] := by
      intro h
      exact hne (List.map_eq_nil_iff.mp h)
    have h1 : detectDrives executeCommand fileGood
        = (potential_paths.filter fileGood).map probedDrive := by
      unfold detectDrives
      dsimp only
      rw [isEmpty_eq_false_of_ne _ hne2]
      rfl
    refine ⟨h1, ?_⟩
    rw [detectDrives_paths, if_neg hne]
  · intro h
    have he : potential_paths.filter fileGood = [] := by
      rw [List.filter_eq_nil_iff]
      intro p hp
      simp [h p hp]
    unfold detectDrives nameListingRecords
    dsimp only
    rw [he]
    rfl

/-- C13, witness: a structured listing with one row is returned as such; with
empty listings and only `/dev/sdb` existing, the probed record of `/dev/sdb` is
returned; with no conventional path existing, `detectDrives` returns the
records of the name listing. -/
theorem discovery_fallback_order_witness :
    discoverSSDs listingOneRow (fun _ => false) = structuredRecords listingOneRow
      ∧ discoverSSDs (fun _ => []) (fun p => decide (p = "/dev/sdb".toList))
          = [probedDrive "/dev/sdb".toList]
      ∧ detectDrives duplicateListing (fun _ => false) = nameListingRecords duplicateListing :=
  ⟨((discovery_fallback_order listingOneRow (fun _ => false)).1 (by decide)).trans (by decide),
   ((discovery_fallback_order (fun _ => []) (fun p => decide (p = "/dev/sdb".toList))).2.1
      (by decide)).trans
     (((discovery_fallback_order (fun _ => []) (fun p => decide (p = "/dev/sdb".toList))).2.2.1
        ⟨"/dev/sdb".toList, by decide, by decide⟩).1.trans (by decide)),
   (discovery_fallback_order duplicateListing (fun _ => false)).2.2.2.1 (fun _ _ => rfl)⟩

theorem dropWhile_marker (pre : List Str) (marker : Str) (body : List Str)
    (hpre : ∀ l ∈ pre, ¬ isMarkerLine l) (hm : isMarkerLine marker) :
    ((pre ++ marker :: body).dropWhile (fun l => !contains l "ID#".toList)).drop 1 = body := by
  induction pre with
  | nil =>
    have : contains marker "ID#".toList = true := (contains_iff _ _).mpr hm
    rw [List.nil_append, List.dropWhile_cons]
    simp only [this, Bool.not_true, Bool.false_eq_true, if_false]
    rfl
  | cons l pre ih =>
    have hl : contains l "ID#".toList = false := by
      cases h : contains l "ID#".toList
      · rfl
      · exact absurd ((contains_iff _ _).mp h) (hpre l (List.mem_cons_self _ _))
    rw [List.cons_append, List.dropWhile_cons]
    simp only [hl, Bool.not_false, if_true]
    exact ih (fun x hx => hpre x (List.mem_cons_of_mem _ hx))

theorem dropWhile_no_marker (lines : List Str) (h : ∀ l ∈ lines, ¬ isMarkerLine l) :
    lines.dropWhile (fun l => !contains l "ID#".toList) = [] := by
  rw [List.dropWhile_eq_nil_iff]
  intro l hl
  cases hc : contains l "ID#".toList
  · rfl
  · exact absurd ((contains_iff _ _).mp hc) (h l hl)

theorem parseSMARTOutput_of_lines (indet : Int) (output : Str) (pre : List Str) (marker : Str)
    (body : List Str) (hlines : getlines output = pre ++ marker :: body)
    (hpre : ∀ l ∈ pre, ¬ isMarkerLine l) (hm : isMarkerLine marker) :
    parseSMARTOutput indet output = body.filterMap (parseSMARTLine indet) := by
  unfold parseSMARTOutput
  dsimp only
  rw [hlines, dropWhile_marker pre marker body hpre hm]

/-- C17: two reports whose lines after the first line containing `ID#` are the
same decode to the same list, whatever the lines before the marker line and the
marker line itself are; that list is the decoding of the lines after the
marker line; and a report without a line containing `ID#` decodes to the empty
list. -/
theorem parseSMARTOutput_header_independent (indet : Int) (out1 out2 : Str)
    (pre1 pre2 : List Str) (marker1 marker2 : Str) (body : List Str)
    (h1 : getlines out1 = pre1 ++ marker1 :: body)
    (h2 : getlines out2 = pre2 ++ marker2 :: body)
    (hpre1 : ∀ l ∈ pre1, ¬ isMarkerLine l) (hm1 : isMarkerLine marker1)
    (hpre2 : ∀ l ∈ pre2, ¬ isMarkerLine l) (hm2 : isMarkerLine marker2) :
    parseSMARTOutput indet out1 = parseSMARTOutput indet out2
      ∧ parseSMARTOutput indet out1 = body.filterMap (parseSMARTLine indet)
      ∧ ∀ out : Str, (∀ l ∈ getlines out, ¬ isMarkerLine l) →
          parseSMARTOutput indet out = [] := by
  refine ⟨?_, parseSMARTOutput_of_lines indet out1 pre1 marker1 body h1 hpre1 hm1, ?_⟩
  · rw [parseSMARTOutput_of_lines indet out1 pre1 marker1 body h1 hpre1 hm1,
      parseSMARTOutput_of_lines indet out2 pre2 marker2 body h2 hpre2 hm2]
  · intro out hout
    unfold parseSMARTOutput
    dsimp only
    rw [dropWhile_no_marker _ hout]
    rfl

/-- C17, witness: a report with two lines before its header line and a report
that starts with a bare marker line decode alike. -/
theorem parseSMARTOutput_header_independent_witness :
    parseSMARTOutput 0
        ("smartctl 7.2\n\nID# ATTRIBUTE_NAME VALUE\n9 Power_On_Hours 99 98 0 1234".toList)
      = parseSMARTOutput 0 ("ID#\n9 Power_On_Hours 99 98 0 1234".toList) :=
  (parseSMARTOutput_header_independent 0
    "smartctl 7.2\n\nID# ATTRIBUTE_NAME VALUE\n9 Power_On_Hours 99 98 0 1234".toList
    "ID#\n9 Power_On_Hours 99 98 0 1234".toList
    ["smartctl 7.2".toList, []] [] "ID# ATTRIBUTE_NAME VALUE".toList "ID#".toList
    ["9 Power_On_Hours 99 98 0 1234".toList] (by decide) (by decide)
    (by decide) (by decide) (by decide) (by decide)).1

theorem readInt_ofStr (line : Str) : (readInt (IStream.ofStr line)).2 = leadingInt line := by
  unfold readInt leadingInt IStream.ofStr IStream.good
  simp only [Bool.not_false, Bool.and_self, Bool.not_true, Bool.false_eq_true, if_false]
  by_cases hb : (line.dropWhile isspace).isEmpty = true
  · have : line.dropWhile isspace = [] := List.isEmpty_iff.mp hb
    rw [this]
    rfl
  · rw [if_neg hb]
    rcases hts : takeSign (line.dropWhile isspace) with ⟨neg, body⟩
    dsimp only
    split_ifs <;> rfl

theorem parseSMARTLine_of_no_int (indet : Int) (line : Str)
    (h : line = [] ∨ leadingInt line = none) : parseSMARTLine indet line = none := by
  unfold parseSMARTLine
  rcases h with rfl | h
  · rfl
  · by_cases he : line.isEmpty = true
    · rw [if_pos he]
    · rw [if_neg he]
      have := readInt_ofStr line
      rw [h] at this
      rcases hr : readInt (IStream.ofStr line) with ⟨s1, oid⟩
      rw [hr] at this
      dsimp only at this
      subst this
      rfl

/-- C18, counterexample: the first token of the data line `5abc x 1 2 3` is
`5abc`, which is not an integer, yet the line produces a record: the
extraction reads the `5` and leaves `abc` to the name. -/
theorem parseSMARTOutput_prefix_id_counterexample :
    firstWord "5abc x 1 2 3".toList = "5abc".toList
      ∧ isIntegerText "5abc".toList = false
      ∧ parseSMARTOutput 0 smartReportPrefixId
          = [{ id := 5, attribute_name := "abc x".toList, current_value := 1, worst_value := 2,
               threshold := 3, raw_value := [] }] := by
  decide

/-- C18, amended: a data line that is empty, or at whose start no integer can be
read (after optional white space there is no optionally signed run of digits,
or its value does not fit `int`), produces no record, and the result is the
result for the report without that line: the records of the lines before it
followed by those of the lines after it. -/
theorem parseSMARTOutput_skips_bad_line (indet : Int) (out1 out2 : Str) (pre : List Str)
    (marker : Str) (before : List Str) (bad : Str) (after : List Str)
    (h1 : getlines out1 = pre ++ marker :: (before ++ bad :: after))
    (h2 : getlines out2 = pre ++ marker :: (before ++ after))
    (hpre : ∀ l ∈ pre, ¬ isMarkerLine l) (hm : isMarkerLine marker)
    (hbad : bad = [] ∨ leadingInt bad = none) :
    parseSMARTLine indet bad = none
      ∧ parseSMARTOutput indet out1 = parseSMARTOutput indet out2
      ∧ parseSMARTOutput indet out1
          = before.filterMap (parseSMARTLine indet) ++ after.filterMap (parseSMARTLine indet) := by
  have hnone := parseSMARTLine_of_no_int indet bad hbad
  have e1 := parseSMARTOutput_of_lines indet out1 pre marker _ h1 hpre hm
  have e2 := parseSMARTOutput_of_lines indet out2 pre marker _ h2 hpre hm
  rw [List.filterMap_append, List.filterMap_cons_none hnone] at e1
  rw [List.filterMap_append] at e2
  exact ⟨hnone, e1.trans e2.symm, e1⟩

/-- C18, witness: removing the line `||_ note` between two rows leaves the
result unchanged. -/
theorem parseSMARTOutput_skips_bad_line_witness :
    parseSMARTOutput 0
        ("ID# NAME\n9 Power_On_Hours 99 98 0 1234\n\n||_ note\n5 Realloc 100 100 10 0".toList)
      = parseSMARTOutput 0
        ("ID# NAME\n9 Power_On_Hours 99 98 0 1234\n\n5 Realloc 100 100 10 0".toList) :=
  (parseSMARTOutput_skips_bad_line 0
    "ID# NAME\n9 Power_On_Hours 99 98 0 1234\n\n||_ note\n5 Realloc 100 100 10 0".toList
    "ID# NAME\n9 Power_On_Hours 99 98 0 1234\n\n5 Realloc 100 100 10 0".toList
    [] "ID# NAME".toList ["9 Power_On_Hours 99 98 0 1234".toList, []] "||_ note".toList
    ["5 Realloc 100 100 10 0".toList] (by decide) (by decide) (by decide) (by decide)
    (Or.inr (by decide))).2.1

/-! ## The key/value map -/

theorem keyValueOf_colon (before after : Str) (hcolon : ':' ∉ before) :
    keyValueOf (before ++ ':' :: after) = some (stripBlanks before, stripBlanks after) := by
  have hmem : ':' ∈ before ++ ':' :: after := by simp
  have hall : ∀ c ∈ before, (c != ':') = true := by
    intro c hc
    have : c ≠ ':' := fun e => hcolon (e ▸ hc)
    simpa using this
  have h1 : (before ++ ':' :: after).takeWhile (fun c => c != ':') = before := by
    rw [List.takeWhile_append_of_pos hall]
    simp [List.takeWhile_cons]
  have h2 : (before ++ ':' :: after).dropWhile (fun c => c != ':') = ':' :: after := by
    rw [List.dropWhile_append_of_pos hall]
    simp [List.dropWhile_cons]
  unfold keyValueOf
  rw [if_pos hmem, h1, h2]
  rfl

theorem parseNVMeLine_eq (metrics : StdMap Str) (line : Str) :
    parseNVMeLine metrics line
      = some (match keyValueOf line with
          | some e => mapSet metrics e.1 e.2 []
          | none => metrics) := by
  by_cases h : ':' ∈ line
  · obtain ⟨before, after, rfl, hb⟩ := List.eq_append_cons_of_mem h
    rw [parseNVMeLine_colon metrics before after hb, keyValueOf_colon before after hb]
  · rw [parseNVMeLine_no_colon metrics line h]
    unfold keyValueOf
    rw [if_neg h]

theorem parseNVMeLines_eq (lines : List Str) (metrics : StdMap Str) :
    parseNVMeLines lines metrics
      = some ((lines.filterMap keyValueOf).foldl (fun m e => mapSet m e.1 e.2 []) metrics) := by
  induction lines generalizing metrics with
  | nil => rfl
  | cons line rest ih =>
    rw [parseNVMeLines, parseNVMeLine_eq]
    dsimp only
    rw [ih]
    cases hk : keyValueOf line with
    | none => rw [List.filterMap_cons_none hk]
    | some e => rw [List.filterMap_cons_some hk, List.foldl_cons]

theorem mapFind_mapSet (m : StdMap Str) (key value other : Str) :
    mapFind (mapSet m key value []) other
      = if other = key then some value else mapFind m other := by
  unfold mapSet
  by_cases h : other = key
  · rw [if_pos h, h, mapFind_mapAlter_self]
  · rw [if_neg h, mapFind_mapAlter_other _ _ _ _ _ h]

theorem lastValue_cons (e : Str × Str) (es : List (Str × Str)) (key : Str) :
    lastValue (e :: es) key
      = match lastValue es key with
        | some v => some v
        | none => if e.1 = key then some e.2 else none := by
  unfold lastValue
  rw [List.reverse_cons, List.find?_append]
  cases hf : List.find? (fun e => decide (e.1 = key)) es.reverse with
  | some x => rfl
  | none =>
    by_cases hk : e.1 = key
    · simp [hk]
    · simp [hk]

theorem mapFind_foldl_mapSet (entries : List (Str × Str)) (m : StdMap Str) (key : Str) :
    mapFind (entries.foldl (fun m e => mapSet m e.1 e.2 []) m) key
      = match lastValue entries key with
        | some v => some v
        | none => mapFind m key := by
  induction entries generalizing m with
  | nil => rfl
  | cons e es ih =>
    rw [List.foldl_cons, ih, lastValue_cons, mapFind_mapSet]
    cases lastValue es key with
    | some v => rfl
    | none =>
      by_cases hk : e.1 = key
      · have hk' : key = e.1 := hk.symm
        simp only [if_pos hk, if_pos hk']
      · have hk' : ¬ key = e.1 := fun h => hk h.symm
        simp only [if_neg hk, if_neg hk']

theorem mapSorted_foldl_mapSet (entries : List (Str × Str)) (m : StdMap Str)
    (hs : mapSorted m) : mapSorted (entries.foldl (fun m e => mapSet m e.1 e.2 []) m) := by
  induction entries generalizing m with
  | nil => exact hs
  | cons e es ih =>
    rw [List.foldl_cons]
    exact ih _ (mapSorted_mapAlter _ _ m e.1 hs)

theorem lastValue_isSome_iff (entries : List (Str × Str)) (key : Str) :
    (∃ v, lastValue entries key = some v) ↔ key ∈ entries.map Prod.fst := by
  unfold lastValue
  constructor
  · rintro ⟨v, hv⟩
    rw [Option.map_eq_some'] at hv
    obtain ⟨e, he, -⟩ := hv
    have hmem := List.mem_of_find?_eq_some he
    have hkey := List.find?_some he
    rw [List.mem_reverse] at hmem
    rw [List.mem_map]
    exact ⟨e, hmem, by simpa using hkey⟩
  · intro h
    rw [List.mem_map] at h
    obtain ⟨e, he, hk⟩ := h
    cases hf : List.find? (fun e => decide (e.1 = key)) entries.reverse with
    | some x => exact ⟨x.2, rfl⟩
    | none =>
      rw [List.find?_eq_none] at hf
      exact absurd (decide_eq_true hk) (hf e (List.mem_reverse.mpr he))

theorem filterMap_keyValueOf_filter (lines : List Str) :
    (lines.filter (fun l => decide (':' ∈ l))).filterMap keyValueOf
      = lines.filterMap keyValueOf := by
  induction lines with
  | nil => rfl
  | cons l ls ih =>
    by_cases h : ':' ∈ l
    · rw [List.filter_cons_of_pos (by simpa using h)]
      cases hk : keyValueOf l with
      | none => rw [List.filterMap_cons_none hk, List.filterMap_cons_none hk, ih]
      | some e => rw [List.filterMap_cons_some hk, List.filterMap_cons_some hk, ih]
    · have hk : keyValueOf l = none := by
        unfold keyValueOf
        rw [if_neg h]
      rw [List.filter_cons_of_neg (by simpa using h), List.filterMap_cons_none hk, ih]

/-- C15: the decoder always returns a map; its keys are exactly the trimmed keys
of the lines that contain a colon; the value of a key is the trimmed value of
the last line with that key; and a text whose lines are those of the input
without the colon-free ones decodes to the same map.  Trimming removes leading
and trailing spaces and tabs. -/
theorem parseNVMeOutput_map (output : Str) :
    ∃ metrics : StdMap Str,
      parseNVMeOutput output = some metrics
        ∧ mapSorted metrics
        ∧ (∀ key : Str, key ∈ metrics.map Prod.fst
            ↔ key ∈ ((getlines output).filterMap keyValueOf).map Prod.fst)
        ∧ (∀ key value : Str, (key, value) ∈ metrics
            ↔ lastValue ((getlines output).filterMap keyValueOf) key = some value)
        ∧ (∀ key : Str, mapFind metrics key
            = lastValue ((getlines output).filterMap keyValueOf) key)
        ∧ ∀ output2 : Str,
            getlines output2 = (getlines output).filter (fun l => decide (':' ∈ l)) →
            parseNVMeOutput output2 = some metrics := by
  refine ⟨_, parseNVMeLines_eq (getlines output) [], ?_, ?_, ?_, ?_, ?_⟩
  · exact mapSorted_foldl_mapSet _ [] List.Pairwise.nil
  · intro key
    have hs := mapSorted_foldl_mapSet ((getlines output).filterMap keyValueOf) []
      List.Pairwise.nil
    refine Iff.trans ?_ (lastValue_isSome_iff _ key)
    constructor
    · intro h
      rw [List.mem_map] at h
      obtain ⟨e, he, hk⟩ := h
      refine ⟨e.2, ?_⟩
      have hf := (mapFind_eq_some_iff _ hs key e.2).mpr (by rw [← hk]; exact he)
      rw [mapFind_foldl_mapSet] at hf
      cases hl : lastValue ((getlines output).filterMap keyValueOf) key with
      | some v => rw [hl] at hf; exact hf
      | none => rw [hl] at hf; cases hf
    · rintro ⟨v, hv⟩
      have hf : mapFind (((getlines output).filterMap keyValueOf).foldl
          (fun m e => mapSet m e.1 e.2 []) []) key = some v := by
        rw [mapFind_foldl_mapSet, hv]
      have := (mapFind_eq_some_iff _ hs key v).mp hf
      exact List.mem_map.mpr ⟨(key, v), this, rfl⟩
  · intro key value
    have hs := mapSorted_foldl_mapSet ((getlines output).filterMap keyValueOf) []
      List.Pairwise.nil
    rw [← mapFind_eq_some_iff _ hs, mapFind_foldl_mapSet]
    cases lastValue ((getlines output).filterMap keyValueOf) key with
    | some v => rfl
    | none => simp [mapFind]
  · intro key
    rw [mapFind_foldl_mapSet]
    cases lastValue ((getlines output).filterMap keyValueOf) key with
    | some v => rfl
    | none => rfl
  · intro output2 h2
    rw [parseNVMeOutput, h2, parseNVMeLines_eq, filterMap_keyValueOf_filter]

/-! ## Tokens of a line and the positions of the performance fields -/

theorem tokens_of_space (c : Char) (cs : Str) (h : isspace c = true) :
    tokens (c :: cs) = tokens cs := by
  simp [tokens, h]

theorem tokens_of_nonspace (c : Char) (cs : Str) (h : isspace c = false) :
    tokens (c :: cs)
      = (c :: cs.takeWhile (fun x => !isspace x)) :: tokens (cs.dropWhile (fun x => !isspace x)) := by
  induction cs generalizing c with
  | nil => simp [tokens, h]
  | cons d ds ih =>
    by_cases hd : isspace d = true
    · simp [tokens, h, hd, List.takeWhile_cons, List.dropWhile_cons]
    · have hd' : isspace d = false := by simpa using hd
      have := ih d hd'
      simp only [tokens, h, hd', Bool.false_eq_true, if_false, List.takeWhile_cons,
        List.dropWhile_cons, Bool.not_false, if_true] at this ⊢
      rw [this]

theorem tokens_eq (l : Str) :
    tokens l
      = match l.dropWhile isspace with
        | [] => []
        | c :: cs =>
          (c :: cs).takeWhile (fun x => !isspace x)
            :: tokens ((c :: cs).dropWhile (fun x => !isspace x)) := by
  induction l with
  | nil => rfl
  | cons c cs ih =>
    by_cases h : isspace c = true
    · rw [tokens_of_space c cs h, List.dropWhile_cons, if_pos h]
      exact ih
    · have h' : isspace c = false := by simpa using h
      rw [tokens_of_nonspace c cs h', List.dropWhile_cons, if_neg h]
      simp [List.takeWhile_cons, List.dropWhile_cons, h']

theorem tokens_examples :
    tokens "  ab  c\td ".toList = ["ab".toList, "c".toList, "d".toList]
      ∧ tokens " ".toList = [] ∧ tokens "x".toList = ["x".toList] := by
  decide

theorem takeWhile_append_stop {p : Char → Bool} (x r : Str)
    (hr : ∀ c, r.head? = some c → p c = false) :
    (x ++ r).takeWhile p = x.takeWhile p ∧ (x ++ r).dropWhile p = x.dropWhile p ++ r := by
  induction x with
  | nil =>
    cases r with
    | nil => simp
    | cons c cs =>
      have := hr c rfl
      simp [List.takeWhile_cons, List.dropWhile_cons, this]
  | cons a x ih =>
    by_cases ha : p a = true
    · simp [List.takeWhile_cons, List.dropWhile_cons, ha, ih.1, ih.2]
    · simp [List.takeWhile_cons, List.dropWhile_cons, ha]

theorem takeSign_minus (cs : Str) : takeSign ('-' :: cs) = (true, cs) := rfl

theorem takeSign_plus (cs : Str) : takeSign ('+' :: cs) = (false, cs) := rfl

theorem takeSign_other (c : Char) (cs : Str) (h1 : c ≠ '-') (h2 : c ≠ '+') :
    takeSign (c :: cs) = (false, c :: cs) := by
  unfold takeSign
  split
  · simp_all
  · simp_all
  · rfl

theorem space_ne {c d : Char} (h : isspace c = true) (hd : isspace d = false) : c ≠ d := by
  rintro rfl
  rw [h] at hd
  cases hd

theorem takeSign_append (x r : Str) (hr : ∀ c, r.head? = some c → isspace c = true) :
    takeSign (x ++ r) = ((takeSign x).1, (takeSign x).2 ++ r) := by
  cases x with
  | nil =>
    cases r with
    | nil => rfl
    | cons c cs =>
      have hc := hr c rfl
      rw [List.nil_append, takeSign_other c cs (space_ne hc (by decide)) (space_ne hc (by decide))]
      rfl
  | cons a x =>
    by_cases h1 : a = '-'
    · subst h1
      rfl
    · by_cases h2 : a = '+'
      · subst h2
        rfl
      · rw [List.cons_append, takeSign_other a _ h1 h2, takeSign_other a _ h1 h2]
        rfl

theorem space_not_digit {c : Char} (h : isspace c = true) : isdigit c = false := by
  cases hd : isdigit c
  · rfl
  · rw [isdigit_not_isspace hd] at h
    cases h

theorem digits_append (x r : Str) (hr : ∀ c, r.head? = some c → isspace c = true) :
    (x ++ r).takeWhile isdigit = x.takeWhile isdigit
      ∧ (x ++ r).dropWhile isdigit = x.dropWhile isdigit ++ r :=
  takeWhile_append_stop x r (fun c hc => space_not_digit (hr c hc))

theorem takeFraction_dot (t : Str) :
    takeFraction ('.' :: t) = (t.takeWhile isdigit, t.dropWhile isdigit) := rfl

theorem takeFraction_other (c : Char) (cs : Str) (h : c ≠ '.') :
    takeFraction (c :: cs) = ([], c :: cs) := by
  unfold takeFraction
  split
  · simp_all
  · rfl

theorem takeFraction_append (x r : Str) (hr : ∀ c, r.head? = some c → isspace c = true) :
    takeFraction (x ++ r) = ((takeFraction x).1, (takeFraction x).2 ++ r) := by
  cases x with
  | nil =>
    cases r with
    | nil => rfl
    | cons c cs =>
      rw [List.nil_append, takeFraction_other c cs (space_ne (hr c rfl) (by decide))]
      rfl
  | cons a x =>
    by_cases h : a = '.'
    · subst h
      rw [List.cons_append, takeFraction_dot, takeFraction_dot, (digits_append x r hr).1,
        (digits_append x r hr).2]
    · rw [List.cons_append, takeFraction_other a _ h, takeFraction_other a _ h]
      rfl

theorem takeExponent_cons (hasDigit : Bool) (c : Char) (t : Str) :
    takeExponent hasDigit (c :: t)
      = if (c = 'e' ∨ c = 'E') ∧ hasDigit = true then
          (some ((takeSign t).1, (takeSign t).2.takeWhile isdigit),
            (takeSign t).2.dropWhile isdigit)
        else (none, c :: t) := rfl

theorem takeExponent_append (hasDigit : Bool) (x r : Str)
    (hr : ∀ c, r.head? = some c → isspace c = true) :
    takeExponent hasDigit (x ++ r)
      = ((takeExponent hasDigit x).1, (takeExponent hasDigit x).2 ++ r) := by
  cases x with
  | nil =>
    cases r with
    | nil => rfl
    | cons c cs =>
      have hc := hr c rfl
      have h1 : c ≠ 'e' := space_ne hc (by decide)
      have h2 : c ≠ 'E' := space_ne hc (by decide)
      simp [takeExponent, h1, h2]
  | cons a x =>
    rw [List.cons_append, takeExponent_cons, takeExponent_cons]
    by_cases h : (a = 'e' ∨ a = 'E') ∧ hasDigit = true
    · rw [if_pos h, if_pos h, takeSign_append x r hr]
      dsimp only
      rw [(digits_append _ r hr).1, (digits_append _ r hr).2]
    · rw [if_neg h, if_neg h]
      rfl

theorem extractFloat_append (x r : Str) (hr : ∀ c, r.head? = some c → isspace c = true) :
    extractFloat (x ++ r) = ((extractFloat x).1, (extractFloat x).2 ++ r) := by
  unfold extractFloat
  dsimp only
  rw [takeSign_append x r hr]
  dsimp only
  rw [(digits_append _ r hr).1, (digits_append _ r hr).2, takeFraction_append _ r hr]
  dsimp only
  rw [takeExponent_append _ _ r hr]

theorem head_dropWhile_false {p : Char → Bool} (l : Str) :
    ∀ c, (l.dropWhile p).head? = some c → p c = false := by
  induction l with
  | nil => intro c h; cases h
  | cons a l ih =>
    intro c h
    rw [List.dropWhile_cons] at h
    by_cases ha : p a = true
    · rw [if_pos ha] at h
      exact ih c h
    · rw [if_neg ha] at h
      simp only [List.head?_cons, Option.some.injEq] at h
      rw [← h]
      simpa using ha

theorem tokens_head (buf t : Str) (ts : List Str) (h : tokens buf = t :: ts) :
    buf.dropWhile isspace ≠ []
      ∧ t = (buf.dropWhile isspace).takeWhile (fun x => !isspace x)
      ∧ ts = tokens ((buf.dropWhile isspace).dropWhile (fun x => !isspace x)) := by
  rw [tokens_eq] at h
  cases hb : buf.dropWhile isspace with
  | nil => rw [hb] at h; cases h
  | cons c cs =>
    rw [hb] at h
    dsimp only at h
    injection h with h1 h2
    exact ⟨by simp, h1.symm, h2.symm⟩

theorem good_of_tokens (s : IStream) (t : Str) (ts : List Str) (hn : s.normal)
    (h : tokens s.buf = t :: ts) : s.good = true := by
  have hbuf : s.buf ≠ [] := by
    intro e
    rw [e] at h
    cases h
  have heof : s.eofbit = false := by
    cases he : s.eofbit
    · rfl
    · exact absurd (hn.2 he) hbuf
  simp [IStream.good, heof, hn.1]

theorem readWord_token (s : IStream) (t : Str) (ts : List Str) (hn : s.normal)
    (h : tokens s.buf = t :: ts) :
    (readWord s).2 = some t ∧ (readWord s).1.normal ∧ tokens (readWord s).1.buf = ts := by
  obtain ⟨hb, ht, hts⟩ := tokens_head s.buf t ts h
  have hg := good_of_tokens s t ts hn h
  have hbe : (s.buf.dropWhile isspace).isEmpty = false := isEmpty_eq_false_of_ne _ hb
  unfold readWord
  simp only [hg, Bool.not_true, Bool.false_eq_true, if_false, hbe]
  refine ⟨by rw [ht], ⟨rfl, ?_⟩, hts.symm⟩
  intro he
  exact List.isEmpty_iff.mp he

theorem readDouble_token (s : IStream) (t : Str) (ts : List Str) (v : Double) (hn : s.normal)
    (h : tokens s.buf = t :: ts) (hv : numericValue t = some v) :
    (readDouble s).2 = some v ∧ (readDouble s).1.normal ∧ tokens (readDouble s).1.buf = ts := by
  obtain ⟨hb, ht, hts⟩ := tokens_head s.buf t ts h
  have hg := good_of_tokens s t ts hn h
  have hbe : (s.buf.dropWhile isspace).isEmpty = false := isEmpty_eq_false_of_ne _ hb
  have hsplit : s.buf.dropWhile isspace
      = t ++ (s.buf.dropWhile isspace).dropWhile (fun x => !isspace x) := by
    rw [ht, List.takeWhile_append_dropWhile]
  have hr : ∀ c, ((s.buf.dropWhile isspace).dropWhile (fun x => !isspace x)).head? = some c →
      isspace c = true := by
    intro c hc
    have := head_dropWhile_false (p := fun x => !isspace x) _ c hc
    simpa using this
  have hx := extractFloat_append t _ hr
  rw [← hsplit] at hx
  unfold numericValue at hv
  by_cases hc : ((extractFloat t).2.isEmpty && ((extractFloat t).1.result).2) = true
  · rw [if_pos hc] at hv
    rw [Bool.and_eq_true] at hc
    have hrest : (extractFloat t).2 = [] := List.isEmpty_iff.mp hc.1
    have hval : ((extractFloat t).1.result).1 = v := by
      injection hv
    unfold readDouble
    simp only [hg, Bool.not_true, Bool.false_eq_true, if_false, hbe, hx, hrest, List.nil_append,
      hc.2, hval]
    refine ⟨trivial, ⟨rfl, ?_⟩, hts.symm⟩
    intro he
    exact List.isEmpty_iff.mp he
  · rw [if_neg hc] at hv
    cases hv

theorem skipWords_tokens (n : Nat) (s : IStream) (skipped ts : List Str) (hn : s.normal)
    (hlen : skipped.length = n) (h : tokens s.buf = skipped ++ ts) :
    (skipWords n s).normal ∧ tokens (skipWords n s).buf = ts := by
  induction n generalizing s skipped with
  | zero =>
    have : skipped = [] := List.length_eq_zero.mp hlen
    subst this
    exact ⟨hn, h⟩
  | succ k ih =>
    cases skipped with
    | nil => cases hlen
    | cons w ws =>
      obtain ⟨-, h2, h3⟩ := readWord_token s w (ws ++ ts) hn h
      exact ih (readWord s).1 ws h2 (by simpa using hlen) h3

theorem scanPerformanceFields_tokens (line t0 t1 t2 t3 t4 t5 t6 t7 t8 t9 t10 t11 t12 t13 : Str)
    (more : List Str) (v1 v2 v3 v4 v11 v12 v13 : Double)
    (htok : tokens line
      = t0 :: t1 :: t2 :: t3 :: t4 :: t5 :: t6 :: t7 :: t8 :: t9 :: t10 :: t11 :: t12 :: t13
          :: more)
    (h1 : numericValue t1 = some v1) (h2 : numericValue t2 = some v2)
    (h3 : numericValue t3 = some v3) (h4 : numericValue t4 = some v4)
    (h11 : numericValue t11 = some v11) (h12 : numericValue t12 = some v12)
    (h13 : numericValue t13 = some v13) :
    scanPerformanceFields line
      = { read_iops := some v1, write_iops := some v2, read_throughput_mb := some v3,
          write_throughput_mb := some v4, read_latency_ms := some v11,
          write_latency_ms := some v12, queue_depth := some v13 } := by
  have hn0 : (IStream.ofStr line).normal := ⟨rfl, fun h => by cases h⟩
  obtain ⟨-, n1, k1⟩ := readWord_token (IStream.ofStr line) t0 _ hn0 htok
  obtain ⟨e1, n2, k2⟩ := readDouble_token _ t1 _ v1 n1 k1 h1
  obtain ⟨e2, n3, k3⟩ := readDouble_token _ t2 _ v2 n2 k2 h2
  obtain ⟨e3, n4, k4⟩ := readDouble_token _ t3 _ v3 n3 k3 h3
  obtain ⟨e4, n5, k5⟩ := readDouble_token _ t4 _ v4 n4 k4 h4
  obtain ⟨n6, k6⟩ := skipWords_tokens 6 _ [t5, t6, t7, t8, t9, t10] _ n5 rfl k5
  obtain ⟨e5, n7, k7⟩ := readDouble_token _ t11 _ v11 n6 k6 h11
  obtain ⟨e6, n8, k8⟩ := readDouble_token _ t12 _ v12 n7 k7 h12
  obtain ⟨e7, -, -⟩ := readDouble_token _ t13 _ v13 n8 k8 h13
  unfold scanPerformanceFields
  dsimp only
  rw [e1, e2, e3, e4, e5, e6, e7]

theorem performanceLoop_first_match (device_name : Str) (pre post : List Str) (line : Str)
    (metrics : PerformanceMetrics)
    (hpre : ∀ l ∈ pre, l = [] ∨ ¬ device_name <:+: l)
    (hne : line ≠ []) (hname : device_name <:+: line) :
    performanceLoop device_name (pre ++ line :: post) metrics
      = readPerformanceFields line metrics := by
  induction pre with
  | nil =>
    have hc : contains line device_name = true := (contains_iff _ _).mpr hname
    rw [List.nil_append, performanceLoop]
    simp only [isEmpty_eq_false_of_ne _ hne, hc, Bool.not_false, Bool.and_self, if_true]
  | cons l pre ih =>
    have hl : (!l.isEmpty && contains l device_name) = false := by
      rcases hpre l (List.mem_cons_self _ _) with rfl | h
      · rfl
      · have : contains l device_name = false := by
          cases hc : contains l device_name
          · rfl
          · exact absurd ((contains_iff _ _).mp hc) h
        rw [this, Bool.and_false]
    rw [List.cons_append, performanceLoop, hl]
    simp only [Bool.false_eq_true, if_false]
    exact ih (fun x hx => hpre x (List.mem_cons_of_mem _ hx))

/-- C20: `getPerformanceMetrics` decodes the first line of the report that is not empty and
contains the short name of the device (the path without a leading `/dev/`).  When the
whitespace-separated tokens of that line are `t0 .. t13` followed by anything, and
`t1 .. t4`, `t11 .. t13` are numeric, the snapshot carries `t1, t2, t3, t4` as read and
write operations per second and read and write throughput, `t11, t12, t13` as read and
write latency and queue depth, and the time of the call; `t0`, `t5 .. t10`, the tokens
after `t13` and the lines after the decoded one have no influence. -/
theorem getPerformanceMetrics_field_positions (executeCommand : Str → Str) (now : Int)
    (indet : PerformanceMetrics) (device_path : Str) (pre post : List Str)
    (line t0 t1 t2 t3 t4 t5 t6 t7 t8 t9 t10 t11 t12 t13 : Str) (more : List Str)
    (v1 v2 v3 v4 v11 v12 v13 : Double)
    (hlines : getlines (executeCommand (iostatCommand device_path)) = pre ++ line :: post)
    (hpre : ∀ l ∈ pre, l = [] ∨ ¬ deviceNameOf device_path <:+: l)
    (hne : line ≠ []) (hname : deviceNameOf device_path <:+: line)
    (htok : tokens line
      = t0 :: t1 :: t2 :: t3 :: t4 :: t5 :: t6 :: t7 :: t8 :: t9 :: t10 :: t11 :: t12 :: t13
          :: more)
    (h1 : numericValue t1 = some v1) (h2 : numericValue t2 = some v2)
    (h3 : numericValue t3 = some v3) (h4 : numericValue t4 = some v4)
    (h11 : numericValue t11 = some v11) (h12 : numericValue t12 = some v12)
    (h13 : numericValue t13 = some v13) :
    getPerformanceMetrics executeCommand now indet device_path
      = { read_iops := v1, write_iops := v2, read_throughput_mb := v3,
          write_throughput_mb := v4, read_latency_ms := v11, write_latency_ms := v12,
          queue_depth := v13, timestamp := now } := by
  have hcmd : getPerformanceMetrics executeCommand now indet device_path
      = performanceLoop (deviceNameOf device_path)
          (getlines (executeCommand (iostatCommand device_path)))
          { indet with timestamp := now } := rfl
  rw [hcmd, hlines, performanceLoop_first_match _ pre post line _ hpre hne hname]
  unfold readPerformanceFields
  rw [scanPerformanceFields_tokens line t0 t1 t2 t3 t4 t5 t6 t7 t8 t9 t10 t11 t12 t13 more
    v1 v2 v3 v4 v11 v12 v13 htok h1 h2 h3 h4 h11 h12 h13]
  rfl

/-- C20, an instance: the report of `reportIostat` for `/dev/sda` starts with an empty line,
its device line has sixteen tokens with `-` and `n/a` among the skipped ones, and a second
line names the device too; the snapshot carries the values of the first device line. -/
theorem getPerformanceMetrics_field_positions_witness :
    getPerformanceMetrics reportIostat 42 (sampleAt 0) "/dev/sda".toList
      = { read_iops := Double.fin (3 / 2), write_iops := Double.fin (5 / 2),
          read_throughput_mb := Double.fin (1 / 10),
          write_throughput_mb := Double.fin (1 / 5),
          read_latency_ms := Double.fin (3 / 10), write_latency_ms := Double.fin (2 / 5),
          queue_depth := Double.fin (1 / 20), timestamp := 42 } :=
  getPerformanceMetrics_field_positions reportIostat 42 (sampleAt 0) "/dev/sda".toList
    [[]] ["sda 9 9 9 9 9 9 9 9 9 9 9 9 9 9 9".toList]
    "sda 1.50 2.50 0.10 0.20 0.00 0.00 - 0.00 n/a 7 0.30 4e-1 0.05 1.00 2.00".toList
    "sda".toList "1.50".toList "2.50".toList "0.10".toList "0.20".toList "0.00".toList
    "0.00".toList "-".toList "0.00".toList "n/a".toList "7".toList "0.30".toList
    "4e-1".toList "0.05".toList ["1.00".toList, "2.00".toList]
    (Double.fin (3 / 2)) (Double.fin (5 / 2)) (Double.fin (1 / 10)) (Double.fin (1 / 5))
    (Double.fin (3 / 10)) (Double.fin (2 / 5)) (Double.fin (1 / 20))
    (by decide) (by decide) (by decide) (by decide) (by decide)
    (by decide!) (by decide!) (by decide!) (by decide!) (by decide!) (by decide!) (by decide!)

/-! ## Size conversion out of range -/

theorem digitsNumber_eq (s : Str) : digitsNumber s = ofDigits10 (s.filter isdigit) := by
  rw [digitsNumber, ← ofDigits10_eq]

theorem filter_isdigit_of_digits (s : Str) (hd : ∀ c ∈ s, isdigit c = true) :
    s.filter isdigit = s :=
  List.filter_eq_self.mpr hd

/-- C22: when the digit characters of a size string spell a number above 2^64 - 1,
`std::stoull` on these digits raises (`none`), the `catch` stores 0, and the
conversion yields 0; when the number is at most 2^64 - 1 the conversion yields
exactly that number; and on a non-empty string of digits of value at most
2^64 - 1 `std::stoull` itself returns the value. -/
theorem sizeBytesOf_out_of_range (s : Str) :
    (2 ^ 64 - 1 < digitsNumber s →
        stoull (s.filter isdigit) = none ∧ sizeBytesOf s = 0)
      ∧ (digitsNumber s ≤ 2 ^ 64 - 1 → sizeBytesOf s = digitsNumber s)
      ∧ (s ≠ [] → (∀ c ∈ s, isdigit c = true) → digitsNumber s ≤ 2 ^ 64 - 1 →
          stoull s = some (digitsNumber s) ∧ sizeBytesOf s = digitsNumber s) := by
  have hmax : ULLONG_MAX = 2 ^ 64 - 1 := rfl
  have heq := sizeBytesOf_eq s
  rw [hmax] at heq
  refine ⟨fun h => ⟨?_, ?_⟩, fun h => ?_, fun hne hd h => ⟨?_, ?_⟩⟩
  · have hne : s.filter isdigit ≠ [] := by
      intro e
      rw [digitsNumber_eq, e] at h
      exact absurd h (by decide)
    have hd : ∀ c ∈ s.filter isdigit, isdigit c = true := fun c hc => (List.mem_filter.mp hc).2
    rw [stoull_digits _ hne hd, hmax, ← digitsNumber_eq, if_pos h]
  · rw [heq, if_neg (Nat.not_le.mpr h)]
  · rw [heq, if_pos h]
  · rw [stoull_digits s hne hd, hmax]
    have e : ofDigits10 s = digitsNumber s := by
      rw [digitsNumber_eq, filter_isdigit_of_digits s hd]
    rw [e, if_neg (Nat.not_lt.mpr h)]
  · rw [heq, if_pos h]

/-- C22, an instance: the digits of `18446744073709551617` spell 2^64 + 1, whose
residue modulo 2^64 is 1, and the conversion yields 0; `18446744073709551615`,
which is 2^64 - 1, is converted exactly. -/
theorem sizeBytesOf_out_of_range_witness :
    sizeBytesOf "18446744073709551617".toList = 0
      ∧ digitsNumber "18446744073709551617".toList % 2 ^ 64 = 1
      ∧ sizeBytesOf "18446744073709551615".toList = 2 ^ 64 - 1 :=
  ⟨((sizeBytesOf_out_of_range "18446744073709551617".toList).1
      (by rw [digitsNumber_eq]; decide)).2,
    by rw [digitsNumber_eq]; decide,
    ((sizeBytesOf_out_of_range "18446744073709551615".toList).2.1
      (by rw [digitsNumber_eq]; decide)).trans (by rw [digitsNumber_eq]; decide)⟩

/-! ## Trimming of blank sides -/

theorem stripBlanks_of_blank (s : Str) (h : ∀ c ∈ s, isBlank c = true) : stripBlanks s = [] := by
  unfold stripBlanks
  have : s.dropWhile isBlank = [] := List.dropWhile_eq_nil_iff.mpr h
  rw [this]
  rfl

theorem stripBlanks_noBlankEnds (s : Str) : noBlankEnds (stripBlanks s) := by
  unfold stripBlanks noBlankEnds
  constructor
  · intro c hc
    have hpre : (s.dropWhile isBlank).rdropWhile isBlank <+: s.dropWhile isBlank :=
      List.rdropWhile_prefix _ _
    obtain ⟨t, ht⟩ := hpre
    cases hr : (s.dropWhile isBlank).rdropWhile isBlank with
    | nil => rw [hr] at hc; cases hc
    | cons a l =>
      rw [hr] at hc ht
      simp only [List.head?_cons, Option.some.injEq] at hc
      subst hc
      have hh : (s.dropWhile isBlank).head? = some a := by
        rw [← ht]
        rfl
      exact head_dropWhile_false s a hh
  · intro c hc
    by_cases hne : (s.dropWhile isBlank).rdropWhile isBlank = []
    · rw [hne] at hc
      cases hc
    · have := List.rdropWhile_last_not isBlank (s.dropWhile isBlank) hne
      rw [List.getLast?_eq_getLast _ hne] at hc
      injection hc with hc
      rw [← hc]
      simpa using this

theorem lastValue_mem (entries : List (Str × Str)) (key value : Str)
    (h : lastValue entries key = some value) : (key, value) ∈ entries := by
  unfold lastValue at h
  rw [Option.map_eq_some'] at h
  obtain ⟨e, he, hv⟩ := h
  have hmem := List.mem_of_find?_eq_some he
  have hkey := List.find?_some he
  rw [List.mem_reverse] at hmem
  have hk : e.1 = key := by simpa using hkey
  have : e = (key, value) := by
    rw [← hk, ← hv]
  rw [← this]
  exact hmem

theorem keyValueOf_noBlankEnds (line : Str) (e : Str × Str) (h : keyValueOf line = some e) :
    noBlankEnds e.1 ∧ noBlankEnds e.2 := by
  unfold keyValueOf at h
  by_cases hc : ':' ∈ line
  · rw [if_pos hc] at h
    injection h with h
    rw [← h]
    exact ⟨stripBlanks_noBlankEnds _, stripBlanks_noBlankEnds _⟩
  · rw [if_neg hc] at h
    cases h

theorem parseNVMeOutput_entries (output : Str) (metrics : StdMap Str)
    (h : parseNVMeOutput output = some metrics) (e : Str × Str) (he : e ∈ metrics) :
    e ∈ (getlines output).filterMap keyValueOf := by
  unfold parseNVMeOutput at h
  rw [parseNVMeLines_eq] at h
  injection h with h
  have hs := mapSorted_foldl_mapSet ((getlines output).filterMap keyValueOf) []
    List.Pairwise.nil
  rw [h] at hs
  have hf := (mapFind_eq_some_iff metrics hs e.1 e.2).mpr he
  rw [← h, mapFind_foldl_mapSet] at hf
  cases hl : lastValue ((getlines output).filterMap keyValueOf) e.1 with
  | none =>
    rw [hl] at hf
    cases hf
  | some v =>
    rw [hl] at hf
    injection hf with hf
    rw [hf] at hl
    exact lastValue_mem _ _ _ hl

theorem parseNVMeOutput_has_key (output : Str) (line : Str) (e : Str × Str)
    (hline : line ∈ getlines output) (he : keyValueOf line = some e) :
    ∃ metrics, parseNVMeOutput output = some metrics ∧ e.1 ∈ metrics.map Prod.fst := by
  refine ⟨_, parseNVMeLines_eq (getlines output) [], ?_⟩
  have hmem : e ∈ (getlines output).filterMap keyValueOf :=
    List.mem_filterMap.mpr ⟨line, hline, he⟩
  have hkey : e.1 ∈ ((getlines output).filterMap keyValueOf).map Prod.fst :=
    List.mem_map.mpr ⟨e, hmem, rfl⟩
  obtain ⟨v, hv⟩ := (lastValue_isSome_iff _ e.1).mpr hkey
  have hf := mapFind_foldl_mapSet ((getlines output).filterMap keyValueOf) [] e.1
  rw [hv] at hf
  exact List.mem_map.mpr ⟨(e.1, v), mapFind_mem _ _ _ hf, rfl⟩

/-- C23: on every line `before:after` (no colon in `before`) both trims return a
text, so the loop body does not fail and stores the entry of the trimmed key
and the trimmed value; a side that is empty or made of spaces and tabs becomes
the empty text.  When the line is the whole input, the result is the single
entry with that empty key or empty value; when the line is one of the lines of
an input, the result holds its trimmed key.  In every result no key and no
value starts or ends with a space or a tab. -/
theorem parseNVMeOutput_blank_sides (before after : Str) (hcolon : ':' ∉ before) :
    (∃ key value : Str,
        trimBlanks before = some key ∧ trimBlanks after = some value
          ∧ ((∀ c ∈ before, isBlank c = true) → key = [])
          ∧ ((∀ c ∈ after, isBlank c = true) → value = [])
          ∧ ∀ metrics : StdMap Str,
              parseNVMeLine metrics (before ++ ':' :: after)
                = some (mapSet metrics key value []))
      ∧ ('\n' ∉ before ++ ':' :: after →
          ((∀ c ∈ before, isBlank c = true) →
              parseNVMeOutput (before ++ ':' :: after) = some [([], stripBlanks after)])
            ∧ ((∀ c ∈ after, isBlank c = true) →
              parseNVMeOutput (before ++ ':' :: after) = some [(stripBlanks before, [])]))
      ∧ (∀ output : Str, before ++ ':' :: after ∈ getlines output →
          ∃ metrics, parseNVMeOutput output = some metrics
            ∧ stripBlanks before ∈ metrics.map Prod.fst)
      ∧ ∀ (output : Str) (metrics : StdMap Str), parseNVMeOutput output = some metrics →
          ∀ e ∈ metrics, noBlankEnds e.1 ∧ noBlankEnds e.2 := by
  refine ⟨⟨stripBlanks before, stripBlanks after, trimBlanks_eq before, trimBlanks_eq after,
    stripBlanks_of_blank before, stripBlanks_of_blank after,
    fun metrics => parseNVMeLine_colon metrics before after hcolon⟩, ?_, ?_, ?_⟩
  · intro hline
    have hl : getlines (before ++ ':' :: after) = [before ++ ':' :: after] :=
      getlines_of_no_newline _ hline (by simp)
    have hres : parseNVMeOutput (before ++ ':' :: after)
        = some [(stripBlanks before, stripBlanks after)] := by
      rw [parseNVMeOutput, hl, parseNVMeLines, parseNVMeLine_colon [] before after hcolon]
      rfl
    constructor
    · intro hb
      rw [hres, stripBlanks_of_blank before hb]
    · intro ha
      rw [hres, stripBlanks_of_blank after ha]
  · intro output hmem
    exact parseNVMeOutput_has_key output _ (stripBlanks before, stripBlanks after) hmem
      (keyValueOf_colon before after hcolon)
  · intro output metrics h e he
    obtain ⟨line, -, hk⟩ := List.mem_filterMap.mp (parseNVMeOutput_entries output metrics h e he)
    exact keyValueOf_noBlankEnds line e hk

/-- C23, an instance: the line made of two spaces, a colon, a tab and a space
decodes to the single entry with the empty key and the empty value. -/
theorem parseNVMeOutput_blank_sides_witness :
    parseNVMeOutput "  :\t ".toList = some [([], [])] :=
  (((parseNVMeOutput_blank_sides "  ".toList "\t ".toList (by decide)).2.1 (by decide)).1
    (by decide)).trans (by decide)

/-! ## Shape of a flush -/

theorem historyPairs_cons (k : Str) (v : List PerformanceMetrics) (rest : History) :
    historyPairs ((k, v) :: rest) = v.map (Prod.mk k) ++ historyPairs rest := by
  simp [historyPairs]

theorem historyPairs_key_mem (hist : History) (p : Str × PerformanceMetrics)
    (hp : p ∈ historyPairs hist) : ∃ e ∈ hist, e.1 = p.1 ∧ p.2 ∈ e.2 := by
  unfold historyPairs at hp
  rw [List.mem_flatMap] at hp
  obtain ⟨e, he, hpe⟩ := hp
  rw [List.mem_map] at hpe
  obtain ⟨m, hm, rfl⟩ := hpe
  exact ⟨e, he, rfl, hm⟩

theorem devicesAscending_historyPairs (hist : History) (hs : mapSorted hist) :
    devicesAscending (historyPairs hist) := by
  unfold mapSorted at hs
  unfold devicesAscending
  induction hist with
  | nil => exact List.Pairwise.nil
  | cons a rest ih =>
    obtain ⟨k, v⟩ := a
    rw [List.pairwise_cons] at hs
    obtain ⟨hhead, htail⟩ := hs
    rw [historyPairs_cons, List.pairwise_append]
    refine ⟨?_, ih htail, ?_⟩
    · rw [List.pairwise_map]
      exact List.pairwise_of_forall (fun _ _ => Or.inl rfl)
    · intro p hp q hq
      rw [List.mem_map] at hp
      obtain ⟨m, -, rfl⟩ := hp
      obtain ⟨e, he, hk, -⟩ := historyPairs_key_mem rest q hq
      right
      rw [← hk]
      exact hhead e he

theorem historyPairs_filter_snd (hist : History) (hs : mapSorted hist) (d : Str) :
    ((historyPairs hist).filter (fun p => decide (p.1 = d))).map Prod.snd
      = historyOf hist d := by
  unfold mapSorted at hs
  induction hist with
  | nil => rfl
  | cons a rest ih =>
    obtain ⟨k, v⟩ := a
    rw [List.pairwise_cons] at hs
    obtain ⟨hhead, htail⟩ := hs
    rw [historyPairs_cons, List.filter_append, List.map_append]
    by_cases hk : k = d
    · subst hk
      have habs : ∀ e ∈ rest, e.1 ≠ k := by
        intro e he heq
        have := hhead e he
        rw [heq, strLt_irrefl] at this
        cases this
      rw [historyPairs_filter_of_absent rest k habs]
      have h1 : (v.map (Prod.mk k)).filter (fun p => decide (p.1 = k)) = v.map (Prod.mk k) := by
        rw [List.filter_eq_self]
        intro p hp
        rw [List.mem_map] at hp
        obtain ⟨m, -, rfl⟩ := hp
        simp
      rw [h1]
      simp [historyOf, mapFind, strLt_irrefl]
    · have h1 : (v.map (Prod.mk k)).filter (fun p => decide (p.1 = d)) = [] := by
        rw [List.filter_eq_nil_iff]
        intro p hp
        rw [List.mem_map] at hp
        obtain ⟨m, -, rfl⟩ := hp
        simpa using hk
      rw [h1, List.map_nil, List.nil_append, ih htail]
      by_cases hlt : strLt d k = true
      · have hnone : mapFind rest d = none := by
          apply mapFind_none_of_lt
          intro e he
          exact strLt_trans _ _ _ hlt (hhead e he)
        have hd : ¬ d = k := fun h => hk h.symm
        simp [historyOf, mapFind, hlt, hnone]
      · have hd : ¬ d = k := fun h => hk h.symm
        simp [historyOf, mapFind, hlt, hd]

/-- C21: a call of `saveMetricsHistory` whose file opens leaves the former lines in
place, appends the header line exactly when there was no line, and then appends
one row per held (device, snapshot) pair: the pairs are grouped by device in
ascending device order, and the pairs of each device are the snapshots of its
sequence in stored order.  A call whose file does not open leaves the lines as
they are.  In both cases the history is the same after the call.  The store is
a `std::map`, whose keys ascend (`mapSorted`), as in every store built by
record steps. -/
theorem flush_output_shape (fmt : Str → PerformanceMetrics → Str) (hist : History)
    (file : List Str) (hs : mapSorted hist) :
    saveMetricsHistory fmt true hist file
        = file ++ (if file.isEmpty then [csvHeader] else [])
            ++ (historyPairs hist).map (fun p => fmt p.1 p.2)
      ∧ file <+: saveMetricsHistory fmt true hist file
      ∧ devicesAscending (historyPairs hist)
      ∧ (∀ d : Str,
          ((historyPairs hist).filter (fun p => decide (p.1 = d))).map Prod.snd
            = historyOf hist d)
      ∧ (∀ p ∈ historyPairs hist, ∃ e ∈ hist, e.1 = p.1 ∧ p.2 ∈ e.2)
      ∧ saveMetricsHistory fmt false hist file = file
      ∧ ∀ (st : MonitorState) (isOpen : Bool),
          (MonitorState.step fmt st (MonitorOp.save isOpen)).metrics_history_
            = st.metrics_history_ := by
  have heq : saveMetricsHistory fmt true hist file
      = file ++ (if file.isEmpty then [csvHeader] else [])
          ++ (historyPairs hist).map (fun p => fmt p.1 p.2) := by
    unfold saveMetricsHistory
    rw [historyRows_eq_map]
    cases file with
    | nil => rfl
    | cons l ls => simp
  refine ⟨heq, ?_, devicesAscending_historyPairs hist hs, historyPairs_filter_snd hist hs,
    historyPairs_key_mem hist, rfl, fun _ _ => rfl⟩
  rw [heq, List.append_assoc]
  exact List.prefix_append _ _

/-- C21, an instance: three record steps for two devices from the empty store, then
a flush into a file that holds one line: the line stays, no header is written,
and the rows follow with `/dev/sda` before `/dev/sdb`. -/
theorem flush_output_shape_witness :
    saveMetricsHistory sampleRow true
        (recordAll [] [("/dev/sdb".toList, sampleAt 1), ("/dev/sda".toList, sampleAt 2),
          ("/dev/sdb".toList, sampleAt 3)]) ["earlier line".toList]
      = ["earlier line".toList, "/dev/sda,2".toList, "/dev/sdb,1".toList,
          "/dev/sdb,3".toList] :=
  ((flush_output_shape sampleRow
    (recordAll [] [("/dev/sdb".toList, sampleAt 1), ("/dev/sda".toList, sampleAt 2),
      ("/dev/sdb".toList, sampleAt 3)]) ["earlier line".toList]
    (mapSorted_recordAll _ [] List.Pairwise.nil)).1).trans (by decide)

end SSDMetrics
